import Mathlib

/-!
Verification of the comrade-pavlik2 package registry.

This file shallowly embeds the Go sources of the registry
(`pkg/client/jsonmap.go`, `pkg/client/gitlab/client.go`, `pkg/client/client.go`,
`pkg/helpers/archive.go`, `pkg/registry/npm.go`) as executable Lean
definitions and proves or refutes the frozen specification claims about them.

Modelling conventions:
* Go byte slices are `List Nat`.
* Go `interface{}` values stored in the LRU caches are inductive sum types;
  a Go type assertion `x.(T)` is a match on the corresponding constructor.
* HTTP fetches performed by the functions under verification are passed in
  as explicit arguments (`Except`/`Option`-valued oracles), since the
  functions treat them as opaque effectful calls.
* Goroutine fan-outs that deliver results over an unbuffered channel are
  modelled by an explicit arrival order: either the function takes the
  arrival list as a parameter, or theorems quantify over every order of the
  input list, so every legal schedule is covered.
* The bounded LRU caches are modelled as association lists; LRU eviction
  only ever removes entries, which is irrelevant to (and only helps) the
  cache-policy invariants proved here, so capacity bookkeeping is omitted.
-/

set_option autoImplicit false

namespace Pavlik

/-- Go byte slices `[]byte`. -/
abbrev Bytes := List Nat

/-! ## `pkg/client/jsonmap.go` — generic JSON values and the `JsonMap` helpers -/

/-- A decoded Go `interface{}` holding a JSON value (`encoding/json` output). -/
inductive JVal where
  | jstr (s : String)
  | jnum (n : Int)
  | jbool (b : Bool)
  | jnull
  | jarr (l : List JVal)
  | jobj (m : List (String × JVal))

/-- A decoded JSON object, Go type `JsonMap = map[string]interface{}`. -/
abbrev JsonMap := List (String × JVal)

/-- `JsonMap.GetString`: value for `key`, failing when the key is absent or
the value is not a string (Go returns `("", err)` in both failure cases). -/
def jmGetString (m : JsonMap) (key : String) : Except String String :=
  match m.lookup key with
  | none => .error ("Key: " ++ key ++ " not found in map")
  | some v =>
    match v with
    | .jstr s => .ok s
    | _ => .error ("Value is not a string for key: " ++ key)

/-- `JsonMap.GetString` with the error ignored, as at every call site
`s, _ := m.GetString(k)`: failures collapse to the empty string. -/
def jmGetStringD (m : JsonMap) (key : String) : String :=
  match jmGetString m key with
  | .ok s => s
  | .error _ => ""

/-- `JsonMap.GetListInterface` with a `nil` default and the error ignored,
as at the call site `l, _ := m.GetListInterface("tag", nil)`:
`some` exactly when the key is present and holds a JSON array. -/
def jmGetListI (m : JsonMap) (key : String) : Option (List JVal) :=
  match m.lookup key with
  | none => none
  | some v =>
    match v with
    | .jarr l => some l
    | _ => none

/-- Go `v, _ := x.(string)`: the string cast with empty-string default. -/
def jstrCastD (v : JVal) : String :=
  match v with
  | .jstr s => s
  | _ => ""

/-! ## The `blang/semver` dependency — `semver.Make` and `Version.String`

`pkg/registry/npm.go` parses tag names with `semver.Make` (an alias of
`semver.Parse`).  The parser below follows that library: the input is split
at the first two dots, major/minor/patch must be non-empty digit runs
without leading zeroes, the patch part may carry `+build` metadata (split
off first) and a `-prerelease` part, whose dot-separated identifiers must be
non-empty and either numeric without leading zeroes or alphanumeric
(hyphens allowed). -/

/-- A parsed semantic version (pre-release and build ids kept as written,
which is faithful because leading zeroes in numeric ids are rejected). -/
structure SemVer where
  major : Nat
  minor : Nat
  patch : Nat
  pre : List String
  build : List String
  deriving DecidableEq, Repr

/-- Digit run without leading zeroes, non-empty (a numeric version part). -/
def numPartOk (cs : List Char) : Bool :=
  match cs with
  | [] => false
  | [c] => c.isDigit
  | c :: rest => c.isDigit && c != '0' && rest.all Char.isDigit

/-- Numeric value of a digit run. -/
def digitsToNat (cs : List Char) : Nat :=
  cs.foldl (fun acc c => acc * 10 + (c.toNat - 48)) 0

/-- `blang/semver`'s `alphanum` character set (letters, digits and hyphen). -/
def svIdChar (c : Char) : Bool :=
  c.isAlphanum || c = '-'

/-- Validity of one pre-release identifier. -/
def preIdOk (cs : List Char) : Bool :=
  match cs with
  | [] => false
  | _ => if cs.all Char.isDigit then numPartOk cs else cs.all svIdChar

/-- Validity of one build identifier. -/
def buildIdOk (cs : List Char) : Bool :=
  match cs with
  | [] => false
  | _ => cs.all svIdChar

/-- Split a character list at every occurrence of `sep` (Go `strings.Split`). -/
def splitAll (sep : Char) (cs : List Char) : List (List Char) :=
  match cs with
  | [] => [[]]
  | c :: rest =>
    let r := splitAll sep rest
    if c = sep then [] :: r
    else
      match r with
      | [] => [[c]]
      | g :: gs => (c :: g) :: gs

/-- Split at the first occurrence of `sep` only (Go `strings.SplitN(_, _, 2)`
behaviour used for the `+` and `-` markers): `none` when `sep` is absent. -/
def splitFirst (sep : Char) (cs : List Char) : Option (List Char × List Char) :=
  match cs with
  | [] => none
  | c :: rest =>
    if c = sep then some ([], rest)
    else
      match splitFirst sep rest with
      | none => none
      | some (l, r) => some (c :: l, r)

/-- Go `strings.SplitN(s, ".", 3)`: at most three groups. -/
def splitN3Dots (cs : List Char) : List (List Char) :=
  match splitFirst '.' cs with
  | none => [cs]
  | some (a, rest) =>
    match splitFirst '.' rest with
    | none => [a, rest]
    | some (b, c) => [a, b, c]

/-- `semver.Make` (= `semver.Parse`) of `blang/semver`. -/
def semverMake (s : String) : Option SemVer :=
  match splitN3Dots s.toList with
  | [maj, mnr, rest] =>
    if numPartOk maj && numPartOk mnr then
      -- build metadata is split off at the first '+', then the pre-release
      -- at the first '-' of what remains; the front must be a numeric patch
      let (beforeBuild, buildIds) :=
        match splitFirst '+' rest with
        | none => (rest, ([] : List (List Char)))
        | some (l, r) => (l, splitAll '.' r)
      let (patchPart, preIds) :=
        match splitFirst '-' beforeBuild with
        | none => (beforeBuild, ([] : List (List Char)))
        | some (l, r) => (l, splitAll '.' r)
      if numPartOk patchPart
          && preIds.all preIdOk && buildIds.all buildIdOk then
        some ⟨digitsToNat maj, digitsToNat mnr, digitsToNat patchPart,
              preIds.map List.asString, buildIds.map List.asString⟩
      else none
    else none
  | _ => none

/-- `Version.String` of `blang/semver`: `major.minor.patch[-pre][+build]`. -/
def svRender (v : SemVer) : String :=
  toString v.major ++ "." ++ toString v.minor ++ "." ++ toString v.patch
    ++ (if v.pre.isEmpty then "" else "-" ++ String.intercalate "." v.pre)
    ++ (if v.build.isEmpty then "" else "+" ++ String.intercalate "." v.build)

/-- Go `strings.TrimLeft(s, "v")`: removes **every** leading `'v'`
(the second argument is a cut-set, not a prefix). -/
def goTrimLeftV (s : String) : String :=
  (s.toList.dropWhile (fun c => c = 'v')).asString

/-! ## `pkg/client/gitlab/client.go` — version negotiation and pagination -/

/-- The two constructor errors of the gitlab client package. -/
inductive GErr where
  | invalidToken
  | invalidEndpoint
  deriving DecidableEq, Repr

/-- The `gitlab.Client` structure (transport handles omitted). -/
structure GClient where
  hasV4Support : Bool
  hasV3Support : Bool
  endpoint : String
  token : String
  apiPref : String
  deriving DecidableEq, Repr

/-- `Client.guessAPIVersion`, as a function of the status codes returned by
`HEAD <endpoint>/api/v4/user` and `HEAD <endpoint>/api/v3/user`; it returns
the `(HasV4Support, HasV3Support, APIPrefix)` bindings it performs. -/
def guessAPIVersion (s4 s3 : Nat) : Except GErr (Bool × Bool × String) :=
  if s4 = 401 then .error .invalidToken
  else if s4 = 200 then .ok (true, false, "/api/v4")
  else if s3 = 401 then .error .invalidToken
  else if s3 = 200 then .ok (false, true, "/api/v3")
  else .error .invalidEndpoint

/-- `gitlab.NewClient`: constructs the client and runs the version probe;
construction fails exactly when the probe fails. -/
def newGClient (endpoint token : String) (s4 s3 : Nat) : Except GErr GClient :=
  match guessAPIVersion s4 s3 with
  | .error e => .error e
  | .ok (v4, v3, pre) => .ok ⟨v4, v3, endpoint, token, pre⟩

/-- Go `strconv.Atoi` on the header strings (digits with an optional sign). -/
def goAtoi (s : String) : Except String Int :=
  match s.toList with
  | [] => .error "invalid syntax"
  | '-' :: ds =>
    if !ds.isEmpty && ds.all Char.isDigit then .ok (-(digitsToNat ds : Int))
    else .error "invalid syntax"
  | '+' :: ds =>
    if !ds.isEmpty && ds.all Char.isDigit then .ok (digitsToNat ds : Int)
    else .error "invalid syntax"
  | ds =>
    if ds.all Char.isDigit then .ok (digitsToNat ds : Int)
    else .error "invalid syntax"

/-- The first (un-paginated) response of `executeAPIMethod`: body plus the
`X-Next-Page` and `X-Total-Pages` header values (`""` when absent). -/
structure FirstResp where
  body : Bytes
  xNextPage : String
  xTotalPages : String
  deriving DecidableEq, Repr

/-- `Client.executeAPIMethod`.

`fetchFirst perPage` is the initial `GET …?per_page=<perPage>` request;
`fetchPage perPage i` is the paginated `GET …?per_page=<perPage>&page=<i>`
request issued by the worker goroutines (`none` models a failed request,
for which the worker sends `nil` on the body channel).  `arrival` is the
order in which the worker goroutines deliver their results on the
unbuffered channel; a legal schedule makes it a permutation of
`[nextPage..totalPages]`.  Bodies are appended in arrival order, `nil`
deliveries are skipped, and the call fails when the collected count does
not match `X-Total-Pages`. -/
def executeAPIMethod (fetchFirst : Nat → Except String FirstResp)
    (fetchPage : Nat → Nat → Option Bytes) (arrival : List Nat) :
    Except String (List Bytes) :=
  match fetchFirst 30 with
  | .error e => .error e
  | .ok resp =>
    if resp.xNextPage = "" then .ok [resp.body]
    else
      match goAtoi resp.xNextPage with
      | .error e => .error e
      | .ok _ =>
        match goAtoi resp.xTotalPages with
        | .error e => .error e
        | .ok totalPages =>
          let received := arrival.filterMap (fetchPage 30)
          let list := resp.body :: received
          if (list.length : Int) ≠ totalPages then
            .error "Failed to get some pages.."
          else .ok list

/-! ## `pkg/client/client.go` — the client-side LRU cache and its operations

The Go package holds one process-wide `globalCache` (an LRU of
`interface{}` values) keyed by `fmt.Sprintf` strings.  Keys are modelled
structurally, one constructor per format string, so that the ref a key was
formed with is recoverable; values are modelled as a sum over the dynamic
types actually stored, with `cother` standing for any foreign type (the
corruption case a Go type assertion rejects). -/

/-- `gitlab.Project` (the fields `client.go` reads). -/
structure Project where
  id : Int
  name : String
  pathWithNamespace : String
  sshURL : String
  httpURL : String
  wwwURL : String
  deriving DecidableEq, Repr

/-- `client.cachedProjectList`: a project list plus its expiry instant
(`time.Time` modelled as nanoseconds). -/
structure CachedProjectList where
  expire : Nat
  projectList : List Project
  deriving DecidableEq, Repr

/-- Cache keys of `client.go`'s `globalCache`, one constructor per
`fmt.Sprintf` pattern: `"%s_%s_%s" kind uuid ref` (`GetArchive`),
`"json_%d_%s" projectID ref` (`fetchJsonFile`) and
`"project_list_%s" token` (`fetchProjectList`/`GetCachedList`). -/
inductive CKey where
  | karch (kind uuid ref : String)
  | kjson (pid : Int) (ref : String)
  | kplist (token : String)
  deriving DecidableEq, Repr

/-- Dynamic types stored in `client.go`'s cache: `[]byte` values,
`cachedProjectList` values, or anything else (`cother`). -/
inductive CVal where
  | cbytes (b : Bytes)
  | cplist (l : CachedProjectList)
  | cother
  deriving DecidableEq, Repr

/-- The client cache contents. -/
abbrev CCache := List (CKey × CVal)

/-- `globalCache.Get`. -/
def ccGet (cc : CCache) (k : CKey) : Option CVal :=
  match cc with
  | [] => none
  | (k', v) :: rest => if k' = k then some v else ccGet rest k

/-- `globalCache.Remove`. -/
def ccRemove (cc : CCache) (k : CKey) : CCache :=
  match cc with
  | [] => []
  | (k', v) :: rest => if k' = k then ccRemove rest k else (k', v) :: ccRemove rest k

/-- `globalCache.Add` (an LRU add replaces any entry under the same key). -/
def ccAdd (cc : CCache) (k : CKey) (v : CVal) : CCache :=
  (k, v) :: ccRemove cc k

/-- The 30-minute project-list TTL, in nanoseconds
(`time.Now().Add(30 * time.Minute)`). -/
def thirtyMinutes : Nat := 30 * 60 * 1000000000

/-- The scan of `fetchProjectList` that locates the catalogue project by
`repoPathWithNamespace` after the list is available: error when no visible
project matches.  (The Go scan fans out one goroutine per project; which
matching project wins a multi-match race is schedule-dependent, the
first match is used here.) -/
def locateContainerRepo (pl : List Project) (repoNs : String) :
    Except String (List Project × Project) :=
  match pl.find? (fun p => p.pathWithNamespace = repoNs) with
  | some p => .ok (pl, p)
  | none => .error ("Project with namespace=" ++ repoNs ++ " not found")

/-- `GitLabConnection.fetchProjectList`.

`upstream` is the `client.GetProjectList()` call issued on a cache miss;
`now` is `time.Now()`.  Returns the visible project list and the located
catalogue project, plus the updated cache.  A cached entry is used only
when its expiry is not yet passed (`Expire.Before(now)` evicts); a cached
value of a foreign dynamic type is ignored (miss path, later overwritten
by `Add`). -/
def fetchProjectList (upstream : Except String (List Project)) (repoNs : String)
    (now : Nat) (token : String) (cc : CCache) :
    Except String (List Project × Project) × CCache :=
  let key := CKey.kplist token
  let hit : Option (List Project) × CCache :=
    match ccGet cc key with
    | some (.cplist cd) =>
      if cd.expire < now then (none, ccRemove cc key)
      else (some cd.projectList, cc)
    | some _ => (none, cc)
    | none => (none, cc)
  match hit with
  | (some pl, cc2) => (locateContainerRepo pl repoNs, cc2)
  | (none, cc2) =>
    match upstream with
    | .error e => (.error e, cc2)
    | .ok pl =>
      (locateContainerRepo pl repoNs,
        ccAdd cc2 key (.cplist ⟨now + thirtyMinutes, pl⟩))

/-- `GitLabConnection.GetCachedList`: the cached projects' web URLs and the
entry's expiry (`time.Time` zero value modelled as `0` when absent); an
expired entry is removed and yields the empty list, but its old expiry is
still returned. -/
def getCachedList (now : Nat) (token : String) (cc : CCache) :
    (List String × Nat) × CCache :=
  let key := CKey.kplist token
  match ccGet cc key with
  | some (.cplist cd) =>
    if cd.expire < now then (([], cd.expire), ccRemove cc key)
    else ((cd.projectList.map (fun p => p.wwwURL), cd.expire), cc)
  | some _ => (([], 0), cc)
  | none => (([], 0), cc)

/-- `GitLabConnection.GetArchive`.

`fetch` stands for the miss path's upstream work
(`fetchBasicData` + `findPackageRepoByUUID` + `client.GetArchive`), whose
own cache traffic is covered separately by the operations it is built
from.  The cache is consulted and written only under `ref != "master"`;
a hit of a foreign dynamic type evicts the entry and fails. -/
def getArchive (fetch : Except String Bytes) (kind uuid ref : String) (cc : CCache) :
    Except String Bytes × CCache :=
  let key := CKey.karch kind uuid ref
  let item : Option CVal := if ref ≠ "master" then ccGet cc key else none
  match item with
  | none =>
    match fetch with
    | .error e => (.error e, cc)
    | .ok archive =>
      (.ok archive, if ref ≠ "master" then ccAdd cc key (.cbytes archive) else cc)
  | some v =>
    match v with
    | .cbytes b => (.ok b, cc)
    | _ =>
      (.error ("Cache broken for key: " ++ kind ++ "_" ++ uuid ++ "_" ++ ref),
        ccRemove cc key)

/-- `GitLabConnection.fetchJsonFile`.

`fetchFile` is the `client.GetFile` call, `decode` the final
`json.Unmarshal` into the caller's receiver type `α`.  The raw file bytes
are cached (under `ref != "master"` only) before decoding, so a decode
failure still caches; a cached value of a foreign type evicts and fails. -/
def fetchJsonFile {α : Type} (fetchFile : Except String Bytes)
    (decode : Bytes → Except String α) (pid : Int) (ref : String) (cc : CCache) :
    Except String α × CCache :=
  let key := CKey.kjson pid ref
  let item : Option CVal := if ref ≠ "master" then ccGet cc key else none
  match item with
  | none =>
    match fetchFile with
    | .error e => (.error e, cc)
    | .ok fileContent =>
      (decode fileContent,
        if ref ≠ "master" then ccAdd cc key (.cbytes fileContent) else cc)
  | some v =>
    match v with
    | .cbytes b => (decode b, cc)
    | _ =>
      (.error ("Cache broken for key: json_" ++ toString pid ++ "_" ++ ref),
        ccRemove cc key)

/-! ## `pkg/client/client.go` — the catalogue (`fetchSourceRepoList`) -/

/-- `client.containerItem` (the bound `Project` pointer is bound later by
`filterProjectList` and is not part of the decoded entry). -/
structure ContainerItem where
  gitURL : String
  uuid : String
  labelList : List String
  deriving DecidableEq, Repr

/-- The per-entry body of `fetchSourceRepoList`'s second fan-out: decode
one catalogue entry into a `containerItem`.  The clone URL is read under
the configured field name `ns`, the uuid under `"uuid"`, and the kind
labels under `"tag"`; string-cast failures collapse to `""` and the entry
is dropped when the URL or uuid is empty or `"tag"` is not an array.
Elements of the array equal (after the `""`-defaulted string cast) to the
requested `kind` are collected into the label list. -/
def containerItemOfEntry (ns kind : String) (data : JsonMap) : Option ContainerItem :=
  let cloneUrl := jmGetStringD data ns
  let uuid := jmGetStringD data "uuid"
  match jmGetListI data "tag" with
  | none => none
  | some tags =>
    if cloneUrl = "" ∨ uuid = "" then none
    else
      some ⟨cloneUrl, uuid,
        tags.filterMap (fun t => if jstrCastD t = kind then some (jstrCastD t) else none)⟩

/-- The collector of `fetchSourceRepoList`'s second fan-out: entries that
decoded and have a non-empty label list form the container repo list. -/
def sourceEntriesToContainers (ns kind : String) (entries : List JsonMap) :
    List ContainerItem :=
  entries.filterMap (fun d =>
    match containerItemOfEntry ns kind d with
    | none => none
    | some c => if c.labelList.isEmpty then none else some c)

/-- The index-file stage of `fetchSourceRepoList`: each configured file is
fetched (through `fetchJsonFile` on ref `"master"`) by its own goroutine;
a failed fetch delivers `nil` and is skipped, a successful one has its
entries appended.  `files` is the worker delivery order, which a legal
schedule makes some permutation of the configured file list
(`[GITLAB_REPO_FILE] ++ extras`). -/
def fetchSourceRepoFiles (fetchFile : String → Option (List JsonMap))
    (files : List String) : List JsonMap :=
  files.foldl (fun acc f =>
    match fetchFile f with
    | none => acc
    | some l => acc ++ l) []

/-- `GitLabConnection.fetchSourceRepoList` for a kind: both fan-outs
composed.  The Go function's only `return` statement is `return nil`; it
never reports an error, whichever file fetches failed. -/
def fetchSourceRepoList (fetchFile : String → Option (List JsonMap))
    (files : List String) (ns kind : String) : Except String (List ContainerItem) :=
  .ok (sourceEntriesToContainers ns kind (fetchSourceRepoFiles fetchFile files))

/-! ## `pkg/helpers/archive.go` — the deterministic archive repacker

The repacker works through the scratch filesystem under `os.TempDir()`.
The scratch tree is modelled as an association list from paths (component
lists, **relative to the per-run scratch directory** `dir_<u>`) to file
nodes; the scratch directory's own absolute path enters the output only
through `filepath.Base` of the source directory handed to
`archivex.AddAll`, which is modelled explicitly (`scratchDir`).  Writing a
file and reading it back (`putFileContents`/`getFileContents` round trips
through `/tmp`) is modelled as value passing.

The upstream `tar.gz` input is modelled at the granularity the code
observes it: either the gzip layer fails to decode (`malformed`, which
also covers the quirk that `unGzip` joins the gzip member name onto the
target path so that a non-empty gzip `Name` header makes `os.Create`
fail), or it yields a stream of tar entries. -/

/-- One tar entry as `archive/tar` delivers it: slash-separated name
(kept as components), directory flag, mode bits and file content. -/
structure TarEntry where
  path : List String
  isDir : Bool
  mode : Nat
  content : Bytes
  deriving DecidableEq, Repr

/-- The upstream archive bytes, at the granularity the repacker reads them. -/
inductive SrcArchive where
  | malformed
  | good (entries : List TarEntry)
  deriving DecidableEq, Repr

/-- A node of the scratch filesystem (mtime in nanoseconds; `content` is
`[]` for directories). -/
structure FNode where
  isDir : Bool
  mode : Nat
  mtime : Nat
  content : Bytes
  deriving DecidableEq, Repr

/-- The scratch tree: paths relative to the scratch directory, in creation
order (keys unique). -/
abbrev FTree := List (List String × FNode)

/-- Process-constant bits the kernel mixes into created files and archive
headers: the umask and the owner ids (`tar.FileInfoHeader` records uid and
gid).  Constant within a process and across replicas of one image. -/
structure ProcEnv where
  umask : Nat
  uid : Nat
  gid : Nat
  deriving DecidableEq, Repr

/-- `archiveTime = time.Date(2016, time.October, 16, 23, 0, 0, 0, time.UTC)`
as Unix nanoseconds. -/
def archiveTimeNs : Nat := 1476658800000000000

/-- Permission bits after the process umask (`mode &^ umask`). -/
def applyUmask (mode umask : Nat) : Nat :=
  mode &&& (4095 ^^^ (umask &&& 4095))

/-- The per-run scratch directory `filepath.Join(os.TempDir(), "dir_"+u)`
where `u = uuid.NewV4().String()` is the run's random temp name. -/
def scratchDir (u : String) : List String :=
  ["tmp", "dir_" ++ u]

/-- Lookup in the scratch tree. -/
def ftGet (fs : FTree) (p : List String) : Option FNode :=
  match fs with
  | [] => none
  | (q, n) :: rest => if q = p then some n else ftGet rest p

/-- Insert-or-replace in the scratch tree (`os.Create` truncates an
existing file; a fresh path is appended in creation order). -/
def ftSet (fs : FTree) (p : List String) (n : FNode) : FTree :=
  match fs with
  | [] => [(p, n)]
  | (q, m) :: rest => if q = p then (p, n) :: rest else (q, m) :: ftSet rest p n

/-- The non-empty prefixes of a path, shortest first. -/
def pathPrefixes (p : List String) : List (List String) :=
  (List.range p.length).map (fun i => p.take (i + 1))

/-- `os.MkdirAll(path, 0755)`: create every missing ancestor and the
directory itself with mode `0755 &^ umask` and the current mtime;
existing nodes are left alone. -/
def mkdirAll (env : ProcEnv) (now : Nat) (fs : FTree) (p : List String) : FTree :=
  (pathPrefixes p).foldl
    (fun acc q =>
      if (ftGet acc q).isSome then acc
      else ftSet acc q ⟨true, applyUmask 485 env.umask, now, []⟩)
    fs

/-- `os.Create` inside `putFileContents`: mode `0666 &^ umask`, current
mtime; fails when the parent directory does not exist (the scratch root
itself always exists). -/
def fsCreate (env : ProcEnv) (now : Nat) (fs : FTree) (p : List String)
    (content : Bytes) : Except String FTree :=
  match p with
  | [] => .error "open: is a directory"
  | _ =>
    let parent := p.dropLast
    if parent.isEmpty ∨ (ftGet fs parent).isSome then
      .ok (ftSet fs p ⟨false, applyUmask 438 env.umask, now, content⟩)
    else .error "open: no such file or directory"

/-- `os.Chtimes(p, archiveTime, archiveTime)` on a single path. -/
def chtimesAt (fs : FTree) (p : List String) : FTree :=
  fs.map (fun e => if e.1 = p then (e.1, ⟨e.2.isDir, e.2.mode, archiveTimeNs, e.2.content⟩) else e)

/-- `recursiveSetFileTime` over the whole scratch tree: every node's times
become `archiveTime`. -/
def chtimesAll (fs : FTree) : FTree :=
  fs.map (fun e => (e.1, ⟨e.2.isDir, e.2.mode, archiveTimeNs, e.2.content⟩))

/-- `putFileContents`: create the file, then `recursiveSetFileTime` on it. -/
def putFileContents (env : ProcEnv) (now : Nat) (fs : FTree) (p : List String)
    (content : Bytes) : Except String FTree :=
  match fsCreate env now fs p content with
  | .error e => .error e
  | .ok fs2 => .ok (chtimesAt fs2 p)

/-- One iteration of `unTar`'s entry loop: `pax_global_header` is skipped,
directory entries run `MkdirAll` (mode 0755), file entries run
`putFileContents` (an empty name joins to the existing target directory
and is also effectively skipped for directories). -/
def unTarStep (env : ProcEnv) (now : Nat) (fs : FTree) (e : TarEntry) :
    Except String FTree :=
  if e.path = ["pax_global_header"] then .ok fs
  else if e.isDir then .ok (mkdirAll env now fs e.path)
  else putFileContents env now fs e.path e.content

/-- The entry loop of `unTar` over the whole tar stream (aborts on the
first failing entry, like the Go loop's `return err`). -/
def unTarLoop (env : ProcEnv) (now : Nat) : List TarEntry → FTree → Except String FTree
  | [], fs => .ok fs
  | e :: rest, fs =>
    match unTarStep env now fs e with
    | .error err => .error err
    | .ok fs2 => unTarLoop env now rest fs2

/-- `unTar`: extract all entries, then `recursiveSetFileTime(targetDir)`. -/
def unTar (env : ProcEnv) (now : Nat) (entries : List TarEntry) :
    Except String FTree :=
  match unTarLoop env now entries [] with
  | .error e => .error e
  | .ok fs => .ok (chtimesAll fs)

/-- The top-level entries of the extracted tree (`ioutil.ReadDir` of the
scratch directory, sorted by name). -/
def topNames (fs : FTree) : List String :=
  (fs.filterMap (fun e =>
    match e.1 with
    | [n] => some n
    | _ => none)).insertionSort (fun a b => a ≤ b)

/-- `os.Rename` of the single top-level entry to the canonical name. -/
def ftRenameTop (fs : FTree) (old new : List String) : FTree :=
  fs.map (fun e =>
    if e.1.take old.length = old then (new ++ e.1.drop old.length, e.2) else e)

/-- The shared front of both repack pipelines: ungzip, untar into the
scratch directory, require exactly one top-level entry, rename it to
`<uuid>-<ref>`.  Returns the canonical scratch tree. -/
def repackExtract (env : ProcEnv) (now : Nat) (src : SrcArchive)
    (repoUUID repoRef : String) : Except String FTree :=
  match src with
  | .malformed => .error "gzip: invalid header"
  | .good entries =>
    match unTar env now entries with
    | .error e => .error e
    | .ok fs =>
      match topNames fs with
      | [single] => .ok (ftRenameTop fs [single] [repoUUID ++ "-" ++ repoRef])
      | _ => .error "Broken archive received from GitLab"

/-- Output container member: entry name (components), directory flag, mode,
mtime and owner ids as the container headers record them, plus content. -/
structure OutMember where
  path : List String
  isDir : Bool
  mode : Nat
  mtime : Nat
  uid : Nat
  gid : Nat
  content : Bytes
  deriving DecidableEq, Repr

/-- Which container `archivex` built (a gzipped tar or a zip); distinct
formats yield distinct bytes. -/
inductive AFormat where
  | tgz
  | zip
  deriving DecidableEq, Repr

/-- The output archive bytes, modelled structurally: the container format
together with its members in archive order. -/
structure OutArchive where
  format : AFormat
  members : List OutMember
  deriving DecidableEq, Repr

/-- Path order of `filepath.Walk`: per-directory lexical order, parents
first (component-wise lexicographic comparison). -/
def pathLeB : List String → List String → Bool
  | [], _ => true
  | _ :: _, [] => false
  | a :: as, b :: bs => if a = b then pathLeB as bs else decide (a < b)

/-- `archivex` `AddAll(sourceDir, true)` preceded by
`recursiveSetFileTime(sourceDir)` (shared by `makeTar` and `makeZip`):
walk the tree in `filepath.Walk` order and emit one member per node, named
`filepath.Base(sourceDir)` followed by the node's path below the source
directory.  At this point the tree's keys are exactly
`canonicalName :: rest`, so the member name is `base :: key.drop 1`. -/
def archivexAddAll (env : ProcEnv) (sourceDir : List String) (fs : FTree) :
    List OutMember :=
  let base := sourceDir.getLastD ""
  ((chtimesAll fs).insertionSort (fun a b => pathLeB a.1 b.1)).map
    (fun e => ⟨base :: e.1.drop 1, e.2.isDir, e.2.mode, e.2.mtime, env.uid, env.gid, e.2.content⟩)

/-- The miss path of `PutNpmArchiveToCache` after the cache check: ungzip,
untar, single-entry check, rename, `makeTar` (tar of the canonical
directory), `makeGzip` (gzip of that tar, written with `gzip.NewWriter`'s
constant header).  The final `os.Chtimes` on the container file touches
only its directory entry, not its bytes. -/
def npmRepack (env : ProcEnv) (u : String) (now : Nat) (src : SrcArchive)
    (repoUUID repoRef : String) : Except String OutArchive :=
  match repackExtract env now src repoUUID repoRef with
  | .error e => .error e
  | .ok fs =>
    .ok ⟨.tgz, archivexAddAll env (scratchDir u ++ [repoUUID ++ "-" ++ repoRef]) fs⟩

/-- The miss path of `GetComposerArchive` after the cache check: the same
extraction followed by `makeZip`. -/
def composerRepack (env : ProcEnv) (u : String) (now : Nat) (src : SrcArchive)
    (repoUUID repoRef : String) : Except String OutArchive :=
  match repackExtract env now src repoUUID repoRef with
  | .error e => .error e
  | .ok fs =>
    .ok ⟨.zip, archivexAddAll env (scratchDir u ++ [repoUUID ++ "-" ++ repoRef]) fs⟩

/-! ### The helpers-side LRU cache (`helpers.globalCache`) -/

/-- Dynamic types in the helpers cache: archive `[]byte` values or anything
else (`hcorrupt`, rejected by the `item.([]byte)` assertion). -/
inductive HVal where
  | hbytes (a : OutArchive)
  | hcorrupt
  deriving DecidableEq, Repr

/-- The helpers cache: both `PutNpmArchiveToCache` and `GetComposerArchive`
key it by `fmt.Sprintf("archive_%s_%s", repoUUID, repoRef)`, modelled as
the `(uuid, ref)` pair the key is formed from. -/
abbrev HCache := List ((String × String) × HVal)

/-- `globalCache.Get` on the helpers cache. -/
def hcGet (hc : HCache) (k : String × String) : Option HVal :=
  match hc with
  | [] => none
  | (k', v) :: rest => if k' = k then some v else hcGet rest k

/-- `globalCache.Remove` on the helpers cache. -/
def hcRemove (hc : HCache) (k : String × String) : HCache :=
  match hc with
  | [] => []
  | (k', v) :: rest => if k' = k then hcRemove rest k else (k', v) :: hcRemove rest k

/-- `globalCache.Add` on the helpers cache. -/
def hcAdd (hc : HCache) (k : String × String) (v : HVal) : HCache :=
  (k, v) :: hcRemove hc k

/-- `helpers.GetNpmArchiveFromCache`: a hit of the right dynamic type is
returned; a hit of a foreign type is evicted and reported as broken; no
entry is a plain miss.  (The lookup itself has no master guard.) -/
def getNpmArchiveFromCache (hc : HCache) (repoUUID repoRef : String) :
    Except String OutArchive × HCache :=
  match hcGet hc (repoUUID, repoRef) with
  | some (.hbytes a) => (.ok a, hc)
  | some _ =>
    (.error ("Cache broken: archive-lru " ++ repoUUID ++ " # " ++ repoRef),
      hcRemove hc (repoUUID, repoRef))
  | none => (.error ("No cache found: archive-lru " ++ repoUUID ++ " # " ++ repoRef), hc)

/-- `helpers.PutNpmArchiveToCache`: serve from cache when the lookup
succeeds (digest recomputed over the served bytes); otherwise rebuild from
`src`, cache the result unless `repoRef == "master"`, and return the bytes
with their digest.  `sha1hex` abstracts `fmt.Sprintf("%x", sha1.Sum(b))`;
every theorem below holds for an arbitrary digest function. -/
def putNpmArchiveToCache (env : ProcEnv) (sha1hex : OutArchive → String)
    (u : String) (now : Nat) (src : SrcArchive) (repoUUID repoRef : String)
    (hc : HCache) : Except String (OutArchive × String) × HCache :=
  match getNpmArchiveFromCache hc repoUUID repoRef with
  | (.ok npmArchive, hc1) => (.ok (npmArchive, sha1hex npmArchive), hc1)
  | (.error _, hc1) =>
    match npmRepack env u now src repoUUID repoRef with
    | .error e => (.error e, hc1)
    | .ok npmArchive =>
      (.ok (npmArchive, sha1hex npmArchive),
        if repoRef ≠ "master" then hcAdd hc1 (repoUUID, repoRef) (.hbytes npmArchive) else hc1)

/-- `helpers.GetComposerArchive`: cache lookup only under
`repoRef != "master"`; a foreign-typed hit evicts and fails (no rebuild);
a miss rebuilds and caches unless `repoRef == "master"`. -/
def getComposerArchive (env : ProcEnv) (u : String) (now : Nat) (src : SrcArchive)
    (repoUUID repoRef : String) (hc : HCache) : Except String OutArchive × HCache :=
  let key := (repoUUID, repoRef)
  let item : Option HVal := if repoRef ≠ "master" then hcGet hc key else none
  match item with
  | some (.hbytes a) => (.ok a, hc)
  | some _ =>
    (.error ("Cache broken: archive-lru " ++ repoUUID ++ " # " ++ repoRef),
      hcRemove hc key)
  | none =>
    match composerRepack env u now src repoUUID repoRef with
    | .error e => (.error e, hc)
    | .ok comp =>
      (.ok comp, if repoRef ≠ "master" then hcAdd hc key (.hbytes comp) else hc)

/-! ## `pkg/registry/npm.go` — the JS-form and PHP-form version assembly -/

/-- `JsonMap.GetMapInterface` with the error ignored (`v, _ := …`): `some`
exactly when the key holds a JSON object (both failure paths return `nil`). -/
def jmGetMapI (m : JsonMap) (key : String) : Option JsonMap :=
  match m.lookup key with
  | some (.jobj o) => some o
  | _ => none

/-- `client.Tag` as the registry reads it: tag name, the tag's commit id
(`Reference`), and the decoded per-tag manifest. -/
structure PkgTag where
  name : String
  reference : String
  metadata : JsonMap

/-- The `dist` object of a JS-form version record. -/
structure NpmDist where
  sha : String
  tarball : String
  deriving Repr

/-- A JS-form version record (`registry.npmVersion`). -/
structure NpmVersion where
  version : String
  name : String
  description : String
  main : String
  dependencies : Option JsonMap
  devDependencies : Option JsonMap
  dist : NpmDist

/-- The body of one tag worker in `NpmPackage.fillVersions`: trim **all**
leading `v`s, parse with `semver.Make` (drop the tag on failure), fetch
the archive and its digest (`c.GetArchive` + `helpers.DataToCache`,
abstracted as `distOracle`, `none` when either step fails, dropping the
tag), then build the record.  `endpoint` abstracts
`fmt.Sprintf(endpoint, uuid, reference)`. -/
def npmVersionOfTag (distOracle : String → Option String)
    (endpoint : String → String → String) (uuid : String) (tag : PkgTag) :
    Option NpmVersion :=
  match semverMake (goTrimLeftV tag.name) with
  | none => none
  | some releaseInfo =>
    match distOracle tag.reference with
    | none => none
    | some sum =>
      some ⟨svRender releaseInfo,
        jmGetStringD tag.metadata "name",
        jmGetStringD tag.metadata "description",
        jmGetStringD tag.metadata "main",
        jmGetMapI tag.metadata "dependencies",
        jmGetMapI tag.metadata "devDependencies",
        ⟨sum, endpoint uuid tag.reference⟩⟩

/-- Go map assignment `m[k] = v` on an association-list model. -/
def amPut {β : Type} (m : List (String × β)) (k : String) (v : β) :
    List (String × β) :=
  match m with
  | [] => [(k, v)]
  | (k', w) :: rest => if k' = k then (k, v) :: rest else (k', w) :: amPut rest k v

/-- `NpmPackage.fillVersions`: every tag is processed by a worker and
successful records are collected into `p.Versions` keyed by the rendered
version.  `tags` is the worker delivery order; theorems quantify over it,
covering every schedule of the fan-out. -/
def npmFillVersions (distOracle : String → Option String)
    (endpoint : String → String → String) (uuid : String) (tags : List PkgTag) :
    List (String × NpmVersion) :=
  tags.foldl (fun acc tag =>
    match npmVersionOfTag distOracle endpoint uuid tag with
    | none => acc
    | some v => amPut acc v.version v) []

/-- The `dist` object of a PHP-form version record. -/
structure ComposerDist where
  url : String
  distType : String
  reference : String
  deriving Repr

/-- A PHP-form version record (`registry.composerVersion`). -/
structure ComposerVersion where
  name : String
  pkgType : String
  version : String
  extra : Option JsonMap
  requires : Option JsonMap
  requireDev : Option JsonMap
  autoload : Option JsonMap
  config : Option JsonMap
  bin : Option (List JVal)
  dist : ComposerDist

/-- The body of one tag worker in `ComposerPackage.versionListFromTags`:
trim **all** leading `v`s, parse with `semver.Make` (drop on failure),
re-prefix the rendered version with a literal `v`, require the manifest
`name` (drop the tag when `GetString` fails, i.e. `name` absent or not a
string), then fill the optional fields and the zip dist. -/
def composerVersionOfTag (endpoint : String → String → String) (uuid : String)
    (tag : PkgTag) : Option ComposerVersion :=
  match semverMake (goTrimLeftV tag.name) with
  | none => none
  | some releaseInfo =>
    match jmGetString tag.metadata "name" with
    | .error _ => none
    | .ok nm =>
      some ⟨nm,
        jmGetStringD tag.metadata "type",
        "v" ++ svRender releaseInfo,
        jmGetMapI tag.metadata "extra",
        jmGetMapI tag.metadata "require",
        jmGetMapI tag.metadata "require-dev",
        jmGetMapI tag.metadata "autoload",
        jmGetMapI tag.metadata "config",
        jmGetListI tag.metadata "bin",
        ⟨endpoint uuid tag.reference, "zip", tag.reference⟩⟩

/-- `ComposerPackage.versionListFromTags`: successful records collected in
worker delivery order (`tags`, quantified in theorems over every order). -/
def composerVersionListFromTags (endpoint : String → String → String)
    (uuid : String) (tags : List PkgTag) : List ComposerVersion :=
  tags.filterMap (fun tag => composerVersionOfTag endpoint uuid tag)

/-- `ComposerPackage.fillVersions`: group the records of one repository
under `Packages[name][version]`. -/
def composerFillVersions (packages : List (String × List (String × ComposerVersion)))
    (versionList : List ComposerVersion) :
    List (String × List (String × ComposerVersion)) :=
  versionList.foldl (fun acc v =>
    let inner := match acc.lookup v.name with
      | none => []
      | some m => m
    amPut acc v.name (amPut inner v.version v)) packages

/-! ## The cache-touching operations as a transition system (for the
master-is-never-cached invariant)

Each constructor carries the upstream responses its operation consumes, so
a sequence of operations covers every interleaving of upstream traffic.
The inner cache traffic of `GetArchive`'s miss path (`fetchBasicData`) is
itself a sequence of `opFetchProjectList`/`opFetchJson` steps, so
arbitrary sequences cover it.  State transitions do not depend on the
decode/digest functions, which are fixed to dummies here. -/

/-- One cache-touching operation of the system. -/
inductive Op where
  | opGetArchive (fetch : Except String Bytes) (kind uuid ref : String)
  | opFetchJson (fetch : Except String Bytes) (pid : Int) (ref : String)
  | opPutNpm (env : ProcEnv) (u : String) (now : Nat) (src : SrcArchive) (uuid ref : String)
  | opGetComposer (env : ProcEnv) (u : String) (now : Nat) (src : SrcArchive) (uuid ref : String)
  | opFetchProjectList (upstream : Except String (List Project)) (repoNs : String)
      (now : Nat) (token : String)
  | opGetCachedList (now : Nat) (token : String)
  | opClearCachedList (token : String)

/-- The combined cache state: `client.go`'s LRU and `helpers`' LRU. -/
abbrev CacheState := CCache × HCache

/-- Effect of one operation on the two caches. -/
def stepOp (s : CacheState) (op : Op) : CacheState :=
  match op with
  | .opGetArchive fetch kind uuid ref => ((getArchive fetch kind uuid ref s.1).2, s.2)
  | .opFetchJson fetch pid ref =>
    ((fetchJsonFile fetch (fun _ => .ok ([] : List JsonMap)) pid ref s.1).2, s.2)
  | .opPutNpm env u now src uuid ref =>
    (s.1, (putNpmArchiveToCache env (fun _ => "") u now src uuid ref s.2).2)
  | .opGetComposer env u now src uuid ref =>
    (s.1, (getComposerArchive env u now src uuid ref s.2).2)
  | .opFetchProjectList upstream repoNs now token =>
    ((fetchProjectList upstream repoNs now token s.1).2, s.2)
  | .opGetCachedList now token => ((getCachedList now token s.1).2, s.2)
  | .opClearCachedList token => (ccRemove s.1 (.kplist token), s.2)

/-- A client-cache key was not formed with ref `"master"` (project-list
keys carry no ref at all). -/
def ckeyMasterFree : CKey → Bool
  | .karch _ _ ref => decide (ref ≠ "master")
  | .kjson _ ref => decide (ref ≠ "master")
  | .kplist _ => true

/-- No key of either cache was formed with ref `"master"`. -/
def noMasterState (s : CacheState) : Bool :=
  s.1.all (fun e => ckeyMasterFree e.1) && s.2.all (fun e => decide (e.1.2 ≠ "master"))

/-! ## Definitions written from the spec's words, for comparison

The two definitions below are **not** translations of the source; they
transcribe the spec sentences the refinement-style claims compare the code
against. -/

/-- Modelled from the spec (§4.2 step 4): keep a catalogue entry iff it has
`uuid` (a string), the configured clone-url field (a string), and `tags`
(an array of strings). -/
def specCatalogueKeep (ns : String) (data : JsonMap) : Bool :=
  (match data.lookup ns with
   | some (.jstr _) => true
   | _ => false)
  && (match data.lookup "uuid" with
      | some (.jstr _) => true
      | _ => false)
  && (match data.lookup "tags" with
      | some (.jarr l) => l.all (fun t => match t with | .jstr _ => true | _ => false)
      | _ => false)

/-- Modelled from the spec (§4.5/§8 semver filter): strip **one** leading
`v` from a tag name. -/
def stripOneV (s : String) : String :=
  match s.toList with
  | 'v' :: rest => rest.asString
  | _ => s

/-- `Except` success test (Go `err == nil`). -/
def isOkE {α : Type} (r : Except String α) : Bool :=
  match r with
  | .ok _ => true
  | .error _ => false

/-! ## Concrete fixtures used by counterexamples and witnesses -/

/-- A catalogue entry whose kind labels sit under the key `tags`
(the spelling the spec mandates). -/
def entryTagsSpelledTags : JsonMap :=
  [("source", .jstr "git@host:a.git"), ("uuid", .jstr "u1"),
   ("tags", .jarr [.jstr "npm"])]

/-- A catalogue entry with the key `tag` (the spelling the code reads)
holding a non-string element next to the kind label. -/
def entryTagWithNonString : JsonMap :=
  [("source", .jstr "git@host:b.git"), ("uuid", .jstr "u2"),
   ("tag", .jarr [.jstr "npm", .jnum 5])]

/-- A small well-formed upstream archive: one top directory with one file. -/
def srcSmall : SrcArchive :=
  .good [⟨["pkg"], true, 493, []⟩, ⟨["pkg", "a.txt"], false, 420, [104, 105]⟩]

/-- A process environment with the usual container umask. -/
def envDefault : ProcEnv := ⟨18, 0, 0⟩

/-- A tag whose name carries two leading `v`s. -/
def tagDoubleV : PkgTag := ⟨"vv1.2.3", "ref1", [("name", .jstr "pkg")]⟩

/-- A plainly-versioned tag. -/
def tagPlain : PkgTag := ⟨"1.0.0", "ref2", [("name", .jstr "pkg")]⟩

/-- A dist oracle that succeeds for `ref1` only. -/
def oracleRef1 (r : String) : Option String :=
  if r = "ref1" then some "sum1" else none

/-- A concrete download-URL formatter. -/
def endpointConcat (u r : String) : String := u ++ "/" ++ r

/-! ## Auxiliary projections for the determinism proofs -/

/-- A scratch node without its mtime. -/
def nodeStrip (n : FNode) : Bool × Nat × Bytes :=
  (n.isDir, n.mode, n.content)

/-- A scratch tree without its mtimes (keys, kinds, modes, contents). -/
def stripT (fs : FTree) : List (List String × (Bool × Nat × Bytes)) :=
  fs.map (fun e => (e.1, nodeStrip e.2))

/-- Two extraction outcomes agree up to mtimes (same error, or trees equal
after dropping mtimes). -/
def exceptStripEq (r r' : Except String FTree) : Prop :=
  match r, r' with
  | .error e, .error e' => e = e'
  | .ok fs, .ok fs' => stripT fs = stripT fs'
  | _, _ => False

/-! # Theorems -/

/-! ### Generic cache lemmas -/

theorem ccGet_ccRemove_self (cc : CCache) (k : CKey) :
    ccGet (ccRemove cc k) k = none := by
  induction cc with
  | nil => rfl
  | cons e rest ih =>
    obtain ⟨k', v⟩ := e
    by_cases h : k' = k
    · simpa [ccRemove, h] using ih
    · simpa [ccRemove, ccGet, h] using ih

theorem hcGet_hcRemove_self (hc : HCache) (k : String × String) :
    hcGet (hcRemove hc k) k = none := by
  induction hc with
  | nil => rfl
  | cons e rest ih =>
    obtain ⟨k', v⟩ := e
    by_cases h : k' = k
    · simpa [hcRemove, h] using ih
    · simpa [hcRemove, hcGet, h] using ih

/-! ### C9 — version negotiation -/

/-- C9: on construction the client probes `HEAD /api/v4/user` and binds
`/api/v4` on 200; on any other non-Unauthorized status it probes
`HEAD /api/v3/user` and binds `/api/v3` on 200; Unauthorized on either
probe fails construction with the invalid-token error; when neither prefix
yields 200, construction fails with the invalid-endpoint error. -/
theorem newGClient_version_negotiation (endpoint token : String) (s4 s3 : Nat) :
    (newGClient endpoint token 401 s3 = .error .invalidToken)
    ∧ (newGClient endpoint token 200 s3 = .ok ⟨true, false, endpoint, token, "/api/v4"⟩)
    ∧ (s4 ≠ 401 → s4 ≠ 200 → newGClient endpoint token s4 401 = .error .invalidToken)
    ∧ (s4 ≠ 401 → s4 ≠ 200 →
        newGClient endpoint token s4 200 = .ok ⟨false, true, endpoint, token, "/api/v3"⟩)
    ∧ (s4 ≠ 401 → s4 ≠ 200 → s3 ≠ 401 → s3 ≠ 200 →
        newGClient endpoint token s4 s3 = .error .invalidEndpoint) := by
  refine ⟨?_, ?_, ?_, ?_, ?_⟩ <;> intros <;> simp [newGClient, guessAPIVersion, *]

/-- C9 witness: a v3-only endpoint with a valid token binds `/api/v3`. -/
theorem newGClient_version_negotiation_witness :
    newGClient "https://gitlab.example" "tok" 404 200
      = .ok ⟨false, true, "https://gitlab.example", "tok", "/api/v3"⟩ :=
  (newGClient_version_negotiation "https://gitlab.example" "tok" 404 200).2.2.2.1
    (by decide) (by decide)

/-! ### C6 — primary catalogue file fatality -/

/-- C6 counterexample: with the primary index file `repo.json` failing to
fetch and only the extra `extra.json` succeeding, `fetchSourceRepoList`
still returns `.ok` (built from the extra file alone) — the catalogue
bootstrap does **not** fail with an error when the primary file is
missing. -/
theorem fetchSourceRepoList_primary_failure_cex :
    fetchSourceRepoList
      (fun f => if f = "extra.json" then some [entryTagWithNonString] else none)
      ["repo.json", "extra.json"] "source" "npm"
      = .ok [⟨"git@host:b.git", "u2", ["npm"]⟩] := by
  rfl

/-- C6 (amended): a failure to fetch **any** index file — the primary one
included — is silently tolerated: the failed file contributes nothing, the
remaining files are still concatenated, and the catalogue bootstrap step
never returns an error for a file-fetch failure. -/
theorem fetchSourceRepoList_any_failure_silent
    (fetchFile : String → Option (List JsonMap)) (ns kind f : String)
    (files1 files2 : List String) (h : fetchFile f = none) :
    fetchSourceRepoList fetchFile (files1 ++ f :: files2) ns kind
      = fetchSourceRepoList fetchFile (files1 ++ files2) ns kind
    ∧ isOkE (fetchSourceRepoList fetchFile (files1 ++ f :: files2) ns kind) = true := by
  constructor
  · simp [fetchSourceRepoList, fetchSourceRepoFiles, List.foldl_append, List.foldl_cons, h]
  · rfl

/-- C6 witness: dropping a failing file from the configured list does not
change the catalogue. -/
theorem fetchSourceRepoList_any_failure_silent_witness :
    fetchSourceRepoList (fun _ => none) (["repo.json"] ++ "extra.json" :: []) "source" "npm"
      = fetchSourceRepoList (fun _ => none) (["repo.json"] ++ []) "source" "npm" :=
  (fetchSourceRepoList_any_failure_silent (fun _ => none) "source" "npm"
    "extra.json" ["repo.json"] [] rfl).1

/-! ### C4 — catalogue entry validation -/

/-- C4 counterexample: an entry carrying the spec's `tags` key (an array of
strings) is dropped by the code, and an entry carrying the code's `tag`
key with a non-string element is kept — refuting both directions of the
claimed validation rule. -/
theorem catalogueValidation_cex :
    specCatalogueKeep "source" entryTagsSpelledTags = true
    ∧ sourceEntriesToContainers "source" "npm" [entryTagsSpelledTags] = []
    ∧ specCatalogueKeep "source" entryTagWithNonString = false
    ∧ sourceEntriesToContainers "source" "npm" [entryTagWithNonString]
        = [⟨"git@host:b.git", "u2", ["npm"]⟩] :=
  ⟨rfl, rfl, rfl, rfl⟩

/-- C4 (amended): an entry survives into the container repository list iff
the configured clone-url field and `uuid` decode to non-empty strings, the
key `tag` (not `tags`) holds a JSON array, and some element of that array
string-casts (with `""` default for non-strings) to the requested kind;
non-string array elements are ignored rather than invalidating the entry. -/
theorem containerEntry_kept_iff (ns kind : String) (data : JsonMap) :
    sourceEntriesToContainers ns kind [data] ≠ []
      ↔ (jmGetStringD data ns ≠ "" ∧ jmGetStringD data "uuid" ≠ ""
          ∧ ∃ l, jmGetListI data "tag" = some l ∧ ∃ t ∈ l, jstrCastD t = kind) := by
  cases h : jmGetListI data "tag" with
  | none =>
    simp [sourceEntriesToContainers, containerItemOfEntry, h]
  | some l =>
    by_cases hu : jmGetStringD data ns = ""
    · simp [sourceEntriesToContainers, containerItemOfEntry, h, hu]
    · by_cases hv : jmGetStringD data "uuid" = ""
      · simp [sourceEntriesToContainers, containerItemOfEntry, h, hu, hv]
      · by_cases hl : List.filterMap
            (fun t => if jstrCastD t = kind then some (jstrCastD t) else none) l = []
        · have hall : ∀ t ∈ l, jstrCastD t ≠ kind := by
            intro t ht hc
            have hnone := (List.filterMap_eq_nil_iff.mp hl) t ht
            rw [hc] at hnone
            simp at hnone
          simp [sourceEntriesToContainers, containerItemOfEntry, h, hu, hv, hl]
          exact hall
        · have hex : ∃ t ∈ l, jstrCastD t = kind := by
            by_contra hc
            push_neg at hc
            apply hl
            rw [List.filterMap_eq_nil_iff]
            intro a ha
            simp [hc a ha]
          simp [sourceEntriesToContainers, containerItemOfEntry, h, hu, hv, hl]
          obtain ⟨t, ht, hc⟩ := hex
          exact ⟨t, ht, hc⟩

/-- C4 witness: the kept entry of the counterexample satisfies exactly the
amended condition. -/
theorem containerEntry_kept_iff_witness :
    sourceEntriesToContainers "source" "npm" [entryTagWithNonString] ≠ [] :=
  (containerEntry_kept_iff "source" "npm" entryTagWithNonString).mpr
    ⟨by decide, by decide, [.jstr "npm", .jnum 5], rfl, .jstr "npm", by simp [entryTagWithNonString], rfl⟩

/-! ### C8 — project-list TTL -/

/-- A project fixture for the TTL counterexample. -/
def projNs : Project :=
  ⟨7, "cat", "group/cat", "git@h:g/c.git", "http://h/g/c.git", "http://h/g/c"⟩

/-- C8 counterexample: an entry stored at `T = 0` has expiry
`E = thirtyMinutes`.  An access at time exactly `T + 30min` — where the
claim demands eviction — returns the cached list and leaves the entry in
place, in both `fetchProjectList` (upstream is down, so no re-fetch can
have happened) and `GetCachedList`. -/
theorem projectListTTL_cex :
    fetchProjectList (.error "gitlab down") "group/cat" thirtyMinutes "tokA"
        [(.kplist "tokA", .cplist ⟨thirtyMinutes, [projNs]⟩)]
      = (.ok ([projNs], projNs), [(.kplist "tokA", .cplist ⟨thirtyMinutes, [projNs]⟩)])
    ∧ getCachedList thirtyMinutes "tokA"
        [(.kplist "tokA", .cplist ⟨thirtyMinutes, [projNs]⟩)]
      = ((["http://h/g/c"], thirtyMinutes),
         [(.kplist "tokA", .cplist ⟨thirtyMinutes, [projNs]⟩)]) :=
  ⟨rfl, rfl⟩

/-- C8 (amended): a project-list entry with expiry `E = T + 30min` is
evicted by any access at time **strictly greater** than `E`, in which case
`fetchProjectList` behaves exactly as if the entry were absent and
`GetCachedList` removes it and reports no cached projects; an access at
any time `≤ E` — the instant `E` itself included — returns the cached
list unchanged and leaves the entry in place. -/
theorem projectListTTL_amended (cc : CCache) (token repoNs : String)
    (upstream : Except String (List Project)) (now exp : Nat) (pl : List Project)
    (h : ccGet cc (.kplist token) = some (.cplist ⟨exp, pl⟩)) :
    (now ≤ exp →
      fetchProjectList upstream repoNs now token cc = (locateContainerRepo pl repoNs, cc)
      ∧ getCachedList now token cc = ((pl.map (fun p => p.wwwURL), exp), cc))
    ∧ (exp < now →
      fetchProjectList upstream repoNs now token cc
          = fetchProjectList upstream repoNs now token (ccRemove cc (.kplist token))
      ∧ getCachedList now token cc = (([], exp), ccRemove cc (.kplist token))) := by
  constructor
  · intro hle
    have hnl : ¬exp < now := Nat.not_lt.mpr hle
    constructor
    · simp [fetchProjectList, h, hnl]
    · simp [getCachedList, h, hnl]
  · intro hlt
    constructor
    · simp [fetchProjectList, h, hlt, ccGet_ccRemove_self]
    · simp [getCachedList, h, hlt]

/-- C8 witness: an access one tick after the expiry evicts the entry. -/
theorem projectListTTL_amended_witness :
    getCachedList 101 "tok" [(.kplist "tok", .cplist ⟨100, []⟩)]
      = (([], 100), ccRemove [(.kplist "tok", .cplist ⟨100, []⟩)] (.kplist "tok")) :=
  ((projectListTTL_amended [(.kplist "tok", .cplist ⟨100, []⟩)] "tok" "ns"
    (.error "e") 101 100 [] rfl).2 (by decide)).2

/-! ### C5 — pagination -/

theorem length_filterMap_all_some {α β : Type} (f : α → Option β) (l : List α)
    (h : ∀ a ∈ l, (f a).isSome) : (l.filterMap f).length = l.length := by
  induction l with
  | nil => rfl
  | cons a t ih =>
    obtain ⟨b, hb⟩ := Option.isSome_iff_exists.mp (h a (by simp))
    simp [List.filterMap_cons, hb, ih (fun x hx => h x (by simp [hx]))]

theorem length_filterMap_lt_of_none {α β : Type} (f : α → Option β) (l : List α)
    (a : α) (ha : a ∈ l) (hn : f a = none) : (l.filterMap f).length < l.length := by
  induction l with
  | nil => cases ha
  | cons b t ih =>
    rcases List.mem_cons.mp ha with hab | hat
    · subst hab
      simp only [List.filterMap_cons, hn]
      exact Nat.lt_succ_of_le (List.length_filterMap_le f t)
    · cases hfb : f b with
      | none =>
        simp only [List.filterMap_cons, hfb]
        exact Nat.lt_succ_of_lt (ih hat)
      | some c =>
        simp only [List.filterMap_cons, hfb, List.length_cons]
        exact Nat.succ_lt_succ (ih hat)

/-- C5 counterexample: three total pages, every fetch succeeding, with the
two worker goroutines delivering page 3 before page 2 (a legal schedule:
`[3, 2]` is a permutation of the page range).  The call succeeds but
returns the pages **out of page order**. -/
theorem pagination_order_cex :
    executeAPIMethod (fun _ => .ok ⟨[1], "2", "3"⟩) (fun _ i => some [i]) [3, 2]
      = .ok [[1], [3], [2]]
    ∧ [[1], [3], [2]] ≠ [[1], [2], [(3 : Nat)]]
    ∧ [3, 2].Perm (List.range' 2 2) := by
  refine ⟨rfl, by decide, by decide⟩

/-- C5 (amended): `executeAPIMethod` fetches page 1 with `per_page=30` and
returns just that page when no `X-Next-Page` header value is present;
otherwise (with the upstream reporting next page 2 and `total ≥ 2`, and
the workers delivering some permutation of pages `2..total`) it returns
page 1 followed by the remaining pages **in completion order** — a
permutation of page order — and if any individual page fetch fails the
whole call fails with an error. -/
theorem pagination_amended (fetchFirst : Nat → Except String FirstResp)
    (fetchPage : Nat → Nat → Option Bytes) (arrival : List Nat)
    (b : Bytes) (nx tot : String) (n : Nat)
    (h1 : fetchFirst 30 = .ok ⟨b, nx, tot⟩) :
    (nx = "" → executeAPIMethod fetchFirst fetchPage arrival = .ok [b])
    ∧ (nx ≠ "" → goAtoi nx = .ok 2 → goAtoi tot = .ok (n : Int) → 2 ≤ n →
        arrival.Perm (List.range' 2 (n - 1)) →
        ((∀ p ∈ arrival, (fetchPage 30 p).isSome) →
          executeAPIMethod fetchFirst fetchPage arrival
            = .ok (b :: arrival.filterMap (fetchPage 30)))
        ∧ ((∃ p ∈ arrival, fetchPage 30 p = none) →
          executeAPIMethod fetchFirst fetchPage arrival
            = .error "Failed to get some pages..")) := by
  constructor
  · intro hnx
    simp [executeAPIMethod, h1, hnx]
  · intro hnx h2 htot hn hperm
    have hlen : arrival.length = n - 1 := by
      simpa using hperm.length_eq
    constructor
    · intro hall
      have hleq : (arrival.filterMap (fetchPage 30)).length = n - 1 := by
        rw [length_filterMap_all_some (fetchPage 30) arrival hall, hlen]
      have hcount : 1 + (n - 1) = n := by omega
      simp only [executeAPIMethod, h1]
      rw [if_neg hnx]
      simp only [h2, htot]
      have : (((b :: arrival.filterMap (fetchPage 30)).length : Nat) : Int) = (n : Int) := by
        simp [hleq]
        omega
      simp [this]
      rw [hleq]
      omega
    · intro hsome
      obtain ⟨p, hp, hpn⟩ := hsome
      have hlt : (arrival.filterMap (fetchPage 30)).length < n - 1 := by
        rw [← hlen]
        exact length_filterMap_lt_of_none (fetchPage 30) arrival p hp hpn
      simp only [executeAPIMethod, h1]
      rw [if_neg hnx]
      simp only [h2, htot]
      have : (((b :: arrival.filterMap (fetchPage 30)).length : Nat) : Int) ≠ (n : Int) := by
        simp only [List.length_cons]
        omega
      simp [this]
      omega

/-- C5 witness: with in-order delivery the pages come back in page order,
and with a failing page 3 the call errors. -/
theorem pagination_amended_witness :
    executeAPIMethod (fun _ => .ok ⟨[1], "2", "3"⟩) (fun _ i => some [i]) [2, 3]
      = .ok [[1], [2], [3]]
    ∧ executeAPIMethod (fun _ => .ok ⟨[1], "2", "3"⟩)
        (fun _ i => if i = 3 then none else some [i]) [2, 3]
      = .error "Failed to get some pages.." :=
  ⟨(((pagination_amended (fun _ => .ok ⟨[1], "2", "3"⟩) (fun _ i => some [i])
      [2, 3] [1] "2" "3" 3 rfl).2 (by decide) rfl rfl (by decide) (by decide)).1
      (by decide)),
   (((pagination_amended (fun _ => .ok ⟨[1], "2", "3"⟩)
      (fun _ i => if i = 3 then none else some [i])
      [2, 3] [1] "2" "3" 3 rfl).2 (by decide) rfl rfl (by decide) (by decide)).2
      ⟨3, by decide, by decide⟩)⟩

/-! ### C3 — cache-corruption recovery -/

/-- C3 counterexample: `GetArchive` finds a cached value of a foreign
dynamic type; although the upstream fetch would succeed with bytes `[7]`,
the call evicts the entry and returns a cache-broken **error** instead of
re-fetching. -/
theorem cacheCorruption_cex :
    getArchive (.ok [7]) "npm" "u" "r" [(.karch "npm" "u" "r", .cother)]
      = (.error "Cache broken for key: npm_u_r", []) := rfl

/-- C3 (amended): a lookup that finds a wrong-typed cached value evicts the
offending entry, but the failing call itself returns a cache-broken error
rather than re-fetching; the **next** identical lookup then sees a miss
and returns the upstream result.  `PutNpmArchiveToCache` alone recovers
within the same call, rebuilding the archive right after the eviction. -/
theorem cacheCorruption_evict_error_then_miss
    (cc : CCache) (hc : HCache) (fetch : Except String Bytes)
    (decode : Bytes → Except String (List JsonMap))
    (env : ProcEnv) (sha1hex : OutArchive → String) (u : String) (now : Nat)
    (src : SrcArchive) (kind uuid ref : String) (pid : Int) :
    (ref ≠ "master" → ccGet cc (.karch kind uuid ref) = some .cother →
      getArchive fetch kind uuid ref cc
          = (.error ("Cache broken for key: " ++ kind ++ "_" ++ uuid ++ "_" ++ ref),
             ccRemove cc (.karch kind uuid ref))
      ∧ (getArchive fetch kind uuid ref (ccRemove cc (.karch kind uuid ref))).1 = fetch)
    ∧ (ref ≠ "master" → ccGet cc (.kjson pid ref) = some .cother →
      fetchJsonFile fetch decode pid ref cc
          = (.error ("Cache broken for key: json_" ++ toString pid ++ "_" ++ ref),
             ccRemove cc (.kjson pid ref))
      ∧ (fetchJsonFile fetch decode pid ref (ccRemove cc (.kjson pid ref))).1
          = (match fetch with | .error e => .error e | .ok fc => decode fc))
    ∧ (hcGet hc (uuid, ref) = some .hcorrupt →
      getNpmArchiveFromCache hc uuid ref
          = (.error ("Cache broken: archive-lru " ++ uuid ++ " # " ++ ref),
             hcRemove hc (uuid, ref))
      ∧ (getNpmArchiveFromCache (hcRemove hc (uuid, ref)) uuid ref).1
          = .error ("No cache found: archive-lru " ++ uuid ++ " # " ++ ref)
      ∧ (putNpmArchiveToCache env sha1hex u now src uuid ref hc).1
          = (match npmRepack env u now src uuid ref with
             | .error e => .error e
             | .ok a => .ok (a, sha1hex a)))
    ∧ (ref ≠ "master" → hcGet hc (uuid, ref) = some .hcorrupt →
      getComposerArchive env u now src uuid ref hc
          = (.error ("Cache broken: archive-lru " ++ uuid ++ " # " ++ ref),
             hcRemove hc (uuid, ref))
      ∧ (getComposerArchive env u now src uuid ref (hcRemove hc (uuid, ref))).1
          = composerRepack env u now src uuid ref) := by
  refine ⟨?_, ?_, ?_, ?_⟩
  · intro hm hcor
    constructor
    · simp [getArchive, hm, hcor]
    · cases fetch with
      | error e => simp [getArchive, hm, ccGet_ccRemove_self]
      | ok a => simp [getArchive, hm, ccGet_ccRemove_self]
  · intro hm hcor
    constructor
    · simp [fetchJsonFile, hm, hcor]
    · cases fetch with
      | error e => simp [fetchJsonFile, hm, ccGet_ccRemove_self]
      | ok a => simp [fetchJsonFile, hm, ccGet_ccRemove_self]
  · intro hcor
    refine ⟨?_, ?_, ?_⟩
    · simp [getNpmArchiveFromCache, hcor]
    · simp [getNpmArchiveFromCache, hcGet_hcRemove_self]
    · cases hrep : npmRepack env u now src uuid ref with
      | error e => simp [putNpmArchiveToCache, getNpmArchiveFromCache, hcor, hrep]
      | ok a => simp [putNpmArchiveToCache, getNpmArchiveFromCache, hcor, hrep]
  · intro hm hcor
    constructor
    · simp [getComposerArchive, hm, hcor]
    · cases hrep : composerRepack env u now src uuid ref with
      | error e => simp [getComposerArchive, hm, hcGet_hcRemove_self, hrep]
      | ok a => simp [getComposerArchive, hm, hcGet_hcRemove_self, hrep]

/-- C3 witness: a corrupted archive entry is evicted and the call fails,
while the follow-up call returns the upstream bytes. -/
theorem cacheCorruption_evict_error_then_miss_witness :
    getArchive (.ok [7]) "npm" "u2" "r2" [(.karch "npm" "u2" "r2", .cother)]
      = (.error "Cache broken for key: npm_u2_r2",
         ccRemove [(.karch "npm" "u2" "r2", .cother)] (.karch "npm" "u2" "r2"))
    ∧ (getArchive (.ok [7]) "npm" "u2" "r2"
        (ccRemove [(.karch "npm" "u2" "r2", .cother)] (.karch "npm" "u2" "r2"))).1
      = .ok [7] :=
  (cacheCorruption_evict_error_then_miss [(.karch "npm" "u2" "r2", .cother)] []
    (.ok [7]) (fun _ => .ok []) envDefault (fun _ => "") "t" 0 srcSmall
    "npm" "u2" "r2" 0).1 (by decide) rfl

/-! ### C7 — the semver filter -/

theorem amPut_lookup_self {β : Type} (m : List (String × β)) (k : String) (v : β) :
    (amPut m k v).lookup k = some v := by
  induction m with
  | nil => simp [amPut, List.lookup]
  | cons e rest ih =>
    obtain ⟨k', w⟩ := e
    by_cases h : k' = k
    · simp [amPut, h, List.lookup]
    · simp only [amPut, if_neg h, List.lookup]
      have : (k == k') = false := by
        simp [Ne.symm h]
      simp [this, ih]

theorem amPut_lookup_isSome {β : Type} (m : List (String × β)) (k k' : String) (v : β)
    (h : (m.lookup k).isSome = true) : ((amPut m k' v).lookup k).isSome = true := by
  induction m with
  | nil => simp [List.lookup] at h
  | cons e rest ih =>
    obtain ⟨ke, w⟩ := e
    by_cases hk : ke = k'
    · subst hk
      simp only [amPut, if_pos rfl]
      by_cases hkk : k = ke
      · simp [List.lookup, hkk]
      · simp only [List.lookup, beq_eq_false_iff_ne, ne_eq] at h ⊢
        rw [show (k == ke) = false by simp [hkk]] at h ⊢
        exact h
    · simp only [amPut, if_neg hk]
      by_cases hkk : k = ke
      · simp [List.lookup, hkk]
      · simp only [List.lookup] at h ⊢
        rw [show (k == ke) = false by simp [hkk]] at h ⊢
        exact ih h

theorem npmFold_keeps_key (distOracle : String → Option String)
    (endpoint : String → String → String) (uuid key : String)
    (l : List PkgTag) (acc : List (String × NpmVersion))
    (h : (acc.lookup key).isSome = true) :
    ((l.foldl (fun acc tag =>
        match npmVersionOfTag distOracle endpoint uuid tag with
        | none => acc
        | some v => amPut acc v.version v) acc).lookup key).isSome = true := by
  induction l generalizing acc with
  | nil => exact h
  | cons t rest ih =>
    simp only [List.foldl_cons]
    cases hv : npmVersionOfTag distOracle endpoint uuid t with
    | none => exact ih acc h
    | some v => exact ih _ (amPut_lookup_isSome acc key v.version v h)

/-- C7 counterexample: the tag `vv1.2.3` does **not** parse after stripping
one leading `v` (so the claim demands its absence), yet the JS-form view
emits a version record for it under `1.2.3`, because the code strips every
leading `v`; and the tag `1.0.0` **does** parse, yet contributes no record
when its archive fetch fails — refuting both halves of the claim. -/
theorem semverFilter_cex :
    semverMake (stripOneV "vv1.2.3") = none
    ∧ ((npmFillVersions oracleRef1 endpointConcat "u" [tagDoubleV, tagPlain]).lookup
        "1.2.3").isSome = true
    ∧ semverMake (stripOneV "1.0.0") = some ⟨1, 0, 0, [], []⟩
    ∧ ((npmFillVersions oracleRef1 endpointConcat "u" [tagDoubleV, tagPlain]).lookup
        "1.0.0").isSome = false :=
  ⟨rfl, rfl, rfl, rfl⟩

/-- C7 (amended): a tag whose name does not parse as a semantic version
after stripping **all** leading `v`s (`strings.TrimLeft`, a cut-set) is
absent from every emitted version mapping, in both forms; a tag that does
parse — **and** whose archive/digest step succeeds (JS form), resp. whose
manifest carries a `name` string (PHP form) — contributes a version record
keyed by the normalised version string, re-prefixed with a literal `v` in
the PHP form. -/
theorem semverFilter_amended (distOracle : String → Option String)
    (endpoint : String → String → String) (uuid : String)
    (t : PkgTag) (l1 l2 : List PkgTag) :
    (semverMake (goTrimLeftV t.name) = none →
      npmFillVersions distOracle endpoint uuid (l1 ++ t :: l2)
        = npmFillVersions distOracle endpoint uuid (l1 ++ l2)
      ∧ composerVersionListFromTags endpoint uuid (l1 ++ t :: l2)
        = composerVersionListFromTags endpoint uuid (l1 ++ l2))
    ∧ (∀ rel sum, semverMake (goTrimLeftV t.name) = some rel →
        distOracle t.reference = some sum →
        ((npmFillVersions distOracle endpoint uuid (l1 ++ t :: l2)).lookup
          (svRender rel)).isSome = true)
    ∧ (∀ rel nm, semverMake (goTrimLeftV t.name) = some rel →
        jmGetString t.metadata "name" = .ok nm →
        ∃ v ∈ composerVersionListFromTags endpoint uuid (l1 ++ t :: l2),
          v.version = "v" ++ svRender rel ∧ v.name = nm) := by
  refine ⟨?_, ?_, ?_⟩
  · intro h
    constructor
    · simp [npmFillVersions, List.foldl_append, npmVersionOfTag, h]
    · simp [composerVersionListFromTags, composerVersionOfTag, h]
  · intro rel sum hrel hsum
    simp only [npmFillVersions, List.foldl_append, List.foldl_cons]
    have hstep : npmVersionOfTag distOracle endpoint uuid t
        = some ⟨svRender rel, jmGetStringD t.metadata "name",
            jmGetStringD t.metadata "description", jmGetStringD t.metadata "main",
            jmGetMapI t.metadata "dependencies", jmGetMapI t.metadata "devDependencies",
            ⟨sum, endpoint uuid t.reference⟩⟩ := by
      simp [npmVersionOfTag, hrel, hsum]
    rw [hstep]
    exact npmFold_keeps_key distOracle endpoint uuid (svRender rel) l2 _
      (by rw [amPut_lookup_self]; rfl)
  · intro rel nm hrel hnm
    refine ⟨⟨nm, jmGetStringD t.metadata "type", "v" ++ svRender rel,
      jmGetMapI t.metadata "extra", jmGetMapI t.metadata "require",
      jmGetMapI t.metadata "require-dev", jmGetMapI t.metadata "autoload",
      jmGetMapI t.metadata "config", jmGetListI t.metadata "bin",
      ⟨endpoint uuid t.reference, "zip", t.reference⟩⟩, ?_, rfl, rfl⟩
    rw [composerVersionListFromTags, List.mem_filterMap]
    refine ⟨t, by simp, ?_⟩
    simp [composerVersionOfTag, hrel, hnm]

/-- C7 witness: a parsing tag with a successful archive step lands in the
JS-form mapping under its normalised version. -/
theorem semverFilter_amended_witness :
    ((npmFillVersions (fun _ => some "s9") endpointConcat "u9" ([] ++ tagPlain :: [])).lookup
      "1.0.0").isSome = true :=
  (semverFilter_amended (fun _ => some "s9") endpointConcat "u9" tagPlain [] []).2.1
    ⟨1, 0, 0, [], []⟩ "s9" rfl rfl

/-! ### C2 — master is never cached -/

theorem noMaster_ccRemove (cc : CCache) (k : CKey)
    (h : cc.all (fun e => ckeyMasterFree e.1) = true) :
    (ccRemove cc k).all (fun e => ckeyMasterFree e.1) = true := by
  induction cc with
  | nil => rfl
  | cons e rest ih =>
    obtain ⟨k', v⟩ := e
    simp only [List.all_cons, Bool.and_eq_true] at h
    by_cases hk : k' = k
    · simp only [ccRemove, if_pos hk]
      exact ih h.2
    · simp only [ccRemove, if_neg hk, List.all_cons, Bool.and_eq_true]
      exact ⟨h.1, ih h.2⟩

theorem noMaster_ccAdd (cc : CCache) (k : CKey) (v : CVal)
    (hk : ckeyMasterFree k = true)
    (h : cc.all (fun e => ckeyMasterFree e.1) = true) :
    (ccAdd cc k v).all (fun e => ckeyMasterFree e.1) = true := by
  simp only [ccAdd, List.all_cons, Bool.and_eq_true]
  exact ⟨hk, noMaster_ccRemove cc k h⟩

theorem noMaster_hcRemove (hc : HCache) (k : String × String)
    (h : hc.all (fun e => decide (e.1.2 ≠ "master")) = true) :
    (hcRemove hc k).all (fun e => decide (e.1.2 ≠ "master")) = true := by
  induction hc with
  | nil => rfl
  | cons e rest ih =>
    obtain ⟨k', v⟩ := e
    simp only [List.all_cons, Bool.and_eq_true] at h
    by_cases hk : k' = k
    · simp only [hcRemove, if_pos hk]
      exact ih h.2
    · simp only [hcRemove, if_neg hk, List.all_cons, Bool.and_eq_true]
      exact ⟨h.1, ih h.2⟩

theorem noMaster_hcAdd (hc : HCache) (k : String × String) (v : HVal)
    (hk : k.2 ≠ "master")
    (h : hc.all (fun e => decide (e.1.2 ≠ "master")) = true) :
    (hcAdd hc k v).all (fun e => decide (e.1.2 ≠ "master")) = true := by
  simp only [hcAdd, List.all_cons, Bool.and_eq_true]
  exact ⟨by simpa using hk, noMaster_hcRemove hc k h⟩

theorem noMaster_getArchive (fetch : Except String Bytes) (kind uuid ref : String)
    (cc : CCache) (h : cc.all (fun e => ckeyMasterFree e.1) = true) :
    ((getArchive fetch kind uuid ref cc).2).all (fun e => ckeyMasterFree e.1) = true := by
  by_cases hm : ref = "master"
  · subst hm
    cases fetch <;> simp [getArchive, h]
  · simp only [getArchive, if_pos hm]
    cases hit : ccGet cc (.karch kind uuid ref) with
    | none =>
      cases fetch with
      | error e => simp [hit, hm, h]
      | ok a =>
        simp only [hit, hm]
        simpa [hm] using noMaster_ccAdd cc (.karch kind uuid ref) (.cbytes a)
          (by simp [ckeyMasterFree, hm]) h
    | some v =>
      cases v with
      | cbytes b => simp [hit, hm, h]
      | cplist l => simpa [hit, hm] using noMaster_ccRemove cc (.karch kind uuid ref) h
      | cother => simpa [hit, hm] using noMaster_ccRemove cc (.karch kind uuid ref) h

theorem noMaster_fetchJsonFile (fetch : Except String Bytes)
    (decode : Bytes → Except String (List JsonMap)) (pid : Int) (ref : String)
    (cc : CCache) (h : cc.all (fun e => ckeyMasterFree e.1) = true) :
    ((fetchJsonFile fetch decode pid ref cc).2).all (fun e => ckeyMasterFree e.1) = true := by
  by_cases hm : ref = "master"
  · subst hm
    cases fetch <;> simp [fetchJsonFile, h]
  · simp only [fetchJsonFile, if_pos hm]
    cases hit : ccGet cc (.kjson pid ref) with
    | none =>
      cases fetch with
      | error e => simp [hit, hm, h]
      | ok a =>
        simp only [hit, hm]
        simpa [hm] using noMaster_ccAdd cc (.kjson pid ref) (.cbytes a)
          (by simp [ckeyMasterFree, hm]) h
    | some v =>
      cases v with
      | cbytes b => simp [hit, hm, h]
      | cplist l => simpa [hit, hm] using noMaster_ccRemove cc (.kjson pid ref) h
      | cother => simpa [hit, hm] using noMaster_ccRemove cc (.kjson pid ref) h

theorem noMaster_fetchProjectList (upstream : Except String (List Project))
    (repoNs : String) (now : Nat) (token : String) (cc : CCache)
    (h : cc.all (fun e => ckeyMasterFree e.1) = true) :
    ((fetchProjectList upstream repoNs now token cc).2).all
      (fun e => ckeyMasterFree e.1) = true := by
  simp only [fetchProjectList]
  cases hit : ccGet cc (.kplist token) with
  | none =>
    cases upstream with
    | error e => simp [hit, h]
    | ok pl =>
      simpa [hit] using noMaster_ccAdd cc (.kplist token)
        (.cplist ⟨now + thirtyMinutes, pl⟩) rfl h
  | some v =>
    cases v with
    | cplist cd =>
      by_cases hexp : cd.expire < now
      · cases upstream with
        | error e => simpa [hit, hexp] using noMaster_ccRemove cc (.kplist token) h
        | ok pl =>
          simpa [hit, hexp] using noMaster_ccAdd (ccRemove cc (.kplist token))
            (.kplist token) (.cplist ⟨now + thirtyMinutes, pl⟩) rfl
            (noMaster_ccRemove cc (.kplist token) h)
      · simp [hit, hexp, h]
    | cbytes b =>
      cases upstream with
      | error e => simp [hit, h]
      | ok pl =>
        simpa [hit] using noMaster_ccAdd cc (.kplist token)
          (.cplist ⟨now + thirtyMinutes, pl⟩) rfl h
    | cother =>
      cases upstream with
      | error e => simp [hit, h]
      | ok pl =>
        simpa [hit] using noMaster_ccAdd cc (.kplist token)
          (.cplist ⟨now + thirtyMinutes, pl⟩) rfl h

theorem noMaster_getCachedList (now : Nat) (token : String) (cc : CCache)
    (h : cc.all (fun e => ckeyMasterFree e.1) = true) :
    ((getCachedList now token cc).2).all (fun e => ckeyMasterFree e.1) = true := by
  simp only [getCachedList]
  cases hit : ccGet cc (.kplist token) with
  | none => simpa [hit] using h
  | some v =>
    cases v with
    | cplist cd =>
      by_cases hexp : cd.expire < now
      · simpa [hit, hexp] using noMaster_ccRemove cc (.kplist token) h
      · simp [hit, hexp, h]
    | cbytes b => simpa [hit] using h
    | cother => simpa [hit] using h

theorem hcAllMem (hc : HCache)
    (h : hc.all (fun e => decide (e.1.2 ≠ "master")) = true) :
    ∀ (a b : String) (v : HVal), ((a, b), v) ∈ hc → ¬b = "master" := by
  intro a b v hm
  have := List.all_eq_true.mp h _ hm
  simpa using this

theorem noMaster_putNpm (env : ProcEnv) (sha1hex : OutArchive → String)
    (u : String) (now : Nat) (src : SrcArchive) (uuid ref : String) (hc : HCache)
    (h : hc.all (fun e => decide (e.1.2 ≠ "master")) = true) :
    ((putNpmArchiveToCache env sha1hex u now src uuid ref hc).2).all
      (fun e => decide (e.1.2 ≠ "master")) = true := by
  simp only [putNpmArchiveToCache, getNpmArchiveFromCache]
  cases hit : hcGet hc (uuid, ref) with
  | none =>
    cases hrep : npmRepack env u now src uuid ref with
    | error e =>
      simp [hit, hrep]
      exact hcAllMem hc h
    | ok a =>
      by_cases hm : ref = "master"
      · simp [hit, hrep, hm]
        exact hcAllMem hc h
      · simpa [hit, hrep, hm] using noMaster_hcAdd hc (uuid, ref) (.hbytes a) hm h
  | some v =>
    cases v with
    | hbytes a =>
      simp [hit]
      exact hcAllMem hc h
    | hcorrupt =>
      cases hrep : npmRepack env u now src uuid ref with
      | error e => simpa [hit, hrep] using noMaster_hcRemove hc (uuid, ref) h
      | ok a =>
        by_cases hm : ref = "master"
        · simpa [hit, hrep, hm] using noMaster_hcRemove hc (uuid, ref) h
        · simpa [hit, hrep, hm] using noMaster_hcAdd (hcRemove hc (uuid, ref))
            (uuid, ref) (.hbytes a) hm (noMaster_hcRemove hc (uuid, ref) h)

theorem noMaster_getComposer (env : ProcEnv) (u : String) (now : Nat)
    (src : SrcArchive) (uuid ref : String) (hc : HCache)
    (h : hc.all (fun e => decide (e.1.2 ≠ "master")) = true) :
    ((getComposerArchive env u now src uuid ref hc).2).all
      (fun e => decide (e.1.2 ≠ "master")) = true := by
  by_cases hm : ref = "master"
  · subst hm
    cases hrep : composerRepack env u now src uuid "master" with
    | error e =>
      simp [getComposerArchive, hrep]
      exact hcAllMem hc h
    | ok a =>
      simp [getComposerArchive, hrep]
      exact hcAllMem hc h
  · simp only [getComposerArchive, if_pos hm]
    cases hit : hcGet hc (uuid, ref) with
    | none =>
      cases hrep : composerRepack env u now src uuid ref with
      | error e =>
        simp [hit, hrep, hm]
        exact hcAllMem hc h
      | ok a => simpa [hit, hrep, hm] using noMaster_hcAdd hc (uuid, ref) (.hbytes a) hm h
    | some v =>
      cases v with
      | hbytes a =>
        simp [hit, hm]
        exact hcAllMem hc h
      | hcorrupt => simpa [hit, hm] using noMaster_hcRemove hc (uuid, ref) h

theorem noMaster_stepOp (s : CacheState) (op : Op)
    (h : noMasterState s = true) : noMasterState (stepOp s op) = true := by
  obtain ⟨cc, hc⟩ := s
  simp only [noMasterState, Bool.and_eq_true] at h
  obtain ⟨h1, h2⟩ := h
  cases op with
  | opGetArchive fetch kind uuid ref =>
    exact Bool.and_eq_true _ _ |>.mpr ⟨noMaster_getArchive fetch kind uuid ref cc h1, h2⟩
  | opFetchJson fetch pid ref =>
    exact Bool.and_eq_true _ _ |>.mpr ⟨noMaster_fetchJsonFile fetch _ pid ref cc h1, h2⟩
  | opPutNpm env u now src uuid ref =>
    exact Bool.and_eq_true _ _ |>.mpr ⟨h1, noMaster_putNpm env _ u now src uuid ref hc h2⟩
  | opGetComposer env u now src uuid ref =>
    exact Bool.and_eq_true _ _ |>.mpr ⟨h1, noMaster_getComposer env u now src uuid ref hc h2⟩
  | opFetchProjectList upstream repoNs now token =>
    exact Bool.and_eq_true _ _ |>.mpr
      ⟨noMaster_fetchProjectList upstream repoNs now token cc h1, h2⟩
  | opGetCachedList now token =>
    exact Bool.and_eq_true _ _ |>.mpr ⟨noMaster_getCachedList now token cc h1, h2⟩
  | opClearCachedList token =>
    exact Bool.and_eq_true _ _ |>.mpr ⟨noMaster_ccRemove cc (.kplist token) h1, h2⟩

/-- C2: master is never cached.  After any sequence of archive and metadata
operations (`GetArchive`, `fetchJsonFile`, `PutNpmArchiveToCache`,
`GetComposerArchive`, plus the project-list operations) with any mix of
refs, starting from any master-free state (the empty caches included),
neither cache contains an entry whose key was formed with ref
`"master"` — every ref-keyed admission is guarded by `ref != "master"`. -/
theorem masterNeverCached (ops : List Op) (s : CacheState)
    (h : noMasterState s = true) :
    noMasterState (ops.foldl stepOp s) = true := by
  induction ops generalizing s with
  | nil => exact h
  | cons op rest ih =>
    rw [List.foldl_cons]
    exact ih _ (noMaster_stepOp s op h)

/-- C2 witness: a run mixing master and non-master refs over every
operation, from empty caches, leaves no master-formed key. -/
theorem masterNeverCached_witness :
    noMasterState
      ([Op.opGetArchive (.ok [1]) "npm" "aa" "master",
        Op.opFetchJson (.ok [2]) 5 "master",
        Op.opPutNpm envDefault "t1" 3 srcSmall "aa" "master",
        Op.opGetComposer envDefault "t2" 4 srcSmall "aa" "master",
        Op.opGetArchive (.ok [1]) "composer" "aa" "ref1",
        Op.opFetchJson (.ok [2]) 5 "ref1",
        Op.opPutNpm envDefault "t3" 5 srcSmall "aa" "ref1",
        Op.opFetchProjectList (.ok [projNs]) "group/cat" 0 "tok",
        Op.opGetCachedList 0 "tok"].foldl stepOp ([], [])) = true :=
  masterNeverCached _ ([], []) rfl

/-! ### C1 / C10 — repack determinism and digest consistency

The repack pipeline's two sources of run-to-run variation are the random
scratch-directory name `u` and the wall clock `now` recorded in freshly
created files and directories.  The lemmas below show neither reaches the
output: the scratch prefix cancels in `filepath.Base`, and
`recursiveSetFileTime` overwrites every mtime with the fixed
`archiveTime`. -/

theorem stripT_ftGet (fs fs' : FTree) (p : List String)
    (h : stripT fs = stripT fs') :
    (ftGet fs p).isSome = (ftGet fs' p).isSome := by
  induction fs generalizing fs' with
  | nil =>
    cases fs' with
    | nil => rfl
    | cons e t => simp [stripT] at h
  | cons e t ih =>
    cases fs' with
    | nil => simp [stripT] at h
    | cons e' t' =>
      simp only [stripT, List.map_cons, List.cons.injEq, Prod.mk.injEq] at h
      obtain ⟨⟨hk, _⟩, ht⟩ := h
      by_cases hp : e.1 = p
      · have hp' : e'.1 = p := hk ▸ hp
        simp [ftGet, hp, hp']
      · have hp' : ¬e'.1 = p := by rw [← hk]; exact hp
        simp only [ftGet, if_neg hp, if_neg hp']
        exact ih t' (by simpa [stripT] using ht)

theorem stripT_ftSet (fs fs' : FTree) (p : List String) (n n' : FNode)
    (hn : nodeStrip n = nodeStrip n') (h : stripT fs = stripT fs') :
    stripT (ftSet fs p n) = stripT (ftSet fs' p n') := by
  induction fs generalizing fs' with
  | nil =>
    cases fs' with
    | nil => simp [ftSet, stripT, hn]
    | cons e t => simp [stripT] at h
  | cons e t ih =>
    cases fs' with
    | nil => simp [stripT] at h
    | cons e' t' =>
      simp only [stripT, List.map_cons, List.cons.injEq, Prod.mk.injEq] at h
      obtain ⟨⟨hk, hns⟩, ht⟩ := h
      by_cases hp : e.1 = p
      · have hp' : e'.1 = p := hk ▸ hp
        simp [ftSet, hp, hp', stripT, hn, ht]
      · have hp' : ¬e'.1 = p := by rw [← hk]; exact hp
        simp only [ftSet, if_neg hp, if_neg hp', stripT, List.map_cons, List.cons.injEq,
          Prod.mk.injEq]
        exact ⟨⟨hk, hns⟩, by simpa [stripT] using ih t' (by simpa [stripT] using ht)⟩

theorem stripT_chtimesAt (fs : FTree) (p : List String) :
    stripT (chtimesAt fs p) = stripT fs := by
  simp only [stripT, chtimesAt, List.map_map]
  apply List.map_congr_left
  intro e _
  by_cases hp : e.1 = p
  · simp [Function.comp, hp, nodeStrip]
  · simp [Function.comp, hp]

theorem stripT_mkdirFold (env : ProcEnv) (now now' : Nat) (qs : List (List String))
    (fs fs' : FTree) (h : stripT fs = stripT fs') :
    stripT (qs.foldl (fun acc q =>
        if (ftGet acc q).isSome then acc
        else ftSet acc q ⟨true, applyUmask 485 env.umask, now, []⟩) fs)
      = stripT (qs.foldl (fun acc q =>
          if (ftGet acc q).isSome then acc
          else ftSet acc q ⟨true, applyUmask 485 env.umask, now', []⟩) fs') := by
  induction qs generalizing fs fs' with
  | nil => exact h
  | cons q qs ih =>
    simp only [List.foldl_cons]
    apply ih
    have hg := stripT_ftGet fs fs' q h
    by_cases hs : (ftGet fs q).isSome = true
    · have hs' : (ftGet fs' q).isSome = true := by rw [← hg]; exact hs
      simp only [hs, hs', if_true]
      exact h
    · have hs' : ¬(ftGet fs' q).isSome = true := by rw [← hg]; exact hs
      simp only [Bool.not_eq_true] at hs hs'
      simp only [hs, hs', Bool.false_eq_true, if_false]
      exact stripT_ftSet fs fs' q _ _ rfl h

theorem stripT_mkdirAll (env : ProcEnv) (now now' : Nat) (fs fs' : FTree)
    (p : List String) (h : stripT fs = stripT fs') :
    stripT (mkdirAll env now fs p) = stripT (mkdirAll env now' fs' p) :=
  stripT_mkdirFold env now now' (pathPrefixes p) fs fs' h

theorem stripT_fsCreate (env : ProcEnv) (now now' : Nat) (fs fs' : FTree)
    (p : List String) (c : Bytes) (h : stripT fs = stripT fs') :
    exceptStripEq (fsCreate env now fs p c) (fsCreate env now' fs' p c) := by
  cases p with
  | nil => simp [fsCreate, exceptStripEq]
  | cons a t =>
    simp only [fsCreate]
    have hg := stripT_ftGet fs fs' ((a :: t).dropLast) h
    by_cases hpar : (a :: t).dropLast.isEmpty = true ∨ (ftGet fs ((a :: t).dropLast)).isSome = true
    · have hpar' : (a :: t).dropLast.isEmpty = true
          ∨ (ftGet fs' ((a :: t).dropLast)).isSome = true := by
        rcases hpar with hp | hp
        · exact Or.inl hp
        · exact Or.inr (hg ▸ hp)
      rw [if_pos hpar, if_pos hpar']
      exact stripT_ftSet fs fs' (a :: t) _ _ rfl h
    · have hpar' : ¬((a :: t).dropLast.isEmpty = true
          ∨ (ftGet fs' ((a :: t).dropLast)).isSome = true) := by
        rw [← hg]
        exact hpar
      rw [if_neg hpar, if_neg hpar']
      simp [exceptStripEq]

theorem stripT_putFileContents (env : ProcEnv) (now now' : Nat) (fs fs' : FTree)
    (p : List String) (c : Bytes) (h : stripT fs = stripT fs') :
    exceptStripEq (putFileContents env now fs p c) (putFileContents env now' fs' p c) := by
  have hc := stripT_fsCreate env now now' fs fs' p c h
  cases h1 : fsCreate env now fs p c with
  | error e =>
    cases h2 : fsCreate env now' fs' p c with
    | error e' =>
      rw [h1, h2] at hc
      simpa [putFileContents, h1, h2, exceptStripEq] using hc
    | ok g =>
      rw [h1, h2] at hc
      exact absurd hc (by simp [exceptStripEq])
  | ok g =>
    cases h2 : fsCreate env now' fs' p c with
    | error e' =>
      rw [h1, h2] at hc
      exact absurd hc (by simp [exceptStripEq])
    | ok g' =>
      rw [h1, h2] at hc
      simp only [exceptStripEq] at hc
      simp only [putFileContents, h1, h2, exceptStripEq]
      rw [stripT_chtimesAt g p, stripT_chtimesAt g' p]
      exact hc

theorem stripT_unTarStep (env : ProcEnv) (now now' : Nat) (fs fs' : FTree)
    (e : TarEntry) (h : stripT fs = stripT fs') :
    exceptStripEq (unTarStep env now fs e) (unTarStep env now' fs' e) := by
  simp only [unTarStep]
  by_cases hpax : e.path = ["pax_global_header"]
  · simp [hpax, exceptStripEq, h]
  · by_cases hd : e.isDir = true
    · simp only [hpax, hd, if_false, if_true, exceptStripEq]
      exact stripT_mkdirAll env now now' fs fs' e.path h
    · simp only [Bool.not_eq_true] at hd
      simp only [hpax, hd, if_false, Bool.false_eq_true]
      exact stripT_putFileContents env now now' fs fs' e.path e.content h

theorem stripT_unTarLoop (env : ProcEnv) (now now' : Nat) (entries : List TarEntry) :
    ∀ fs fs', stripT fs = stripT fs' →
      exceptStripEq (unTarLoop env now entries fs) (unTarLoop env now' entries fs') := by
  induction entries with
  | nil =>
    intro fs fs' h
    simpa [unTarLoop, exceptStripEq] using h
  | cons e rest ih =>
    intro fs fs' h
    have hs := stripT_unTarStep env now now' fs fs' e h
    simp only [unTarLoop]
    cases h1 : unTarStep env now fs e with
    | error err =>
      cases h2 : unTarStep env now' fs' e with
      | error err' =>
        rw [h1, h2] at hs
        simpa [exceptStripEq] using hs
      | ok g =>
        rw [h1, h2] at hs
        exact absurd hs (by simp [exceptStripEq])
    | ok fs2 =>
      cases h2 : unTarStep env now' fs' e with
      | error err' =>
        rw [h1, h2] at hs
        exact absurd hs (by simp [exceptStripEq])
      | ok fs2' =>
        rw [h1, h2] at hs
        simp only [exceptStripEq] at hs
        exact ih fs2 fs2' hs

theorem chtimesAll_congr (fs fs' : FTree) (h : stripT fs = stripT fs') :
    chtimesAll fs = chtimesAll fs' := by
  have e1 : ∀ gs : FTree, chtimesAll gs = (stripT gs).map
      (fun e => (e.1, ⟨e.2.1, e.2.2.1, archiveTimeNs, e.2.2.2⟩)) := by
    intro gs
    simp only [chtimesAll, stripT, List.map_map]
    rfl
  rw [e1, e1, h]

theorem unTar_time_indep (env : ProcEnv) (now now' : Nat) (entries : List TarEntry) :
    unTar env now entries = unTar env now' entries := by
  have h := stripT_unTarLoop env now now' entries [] [] rfl
  simp only [unTar]
  cases h1 : unTarLoop env now entries [] with
  | error e =>
    cases h2 : unTarLoop env now' entries [] with
    | error e' =>
      rw [h1, h2] at h
      simp only [exceptStripEq] at h
      exact congrArg Except.error h
    | ok g =>
      rw [h1, h2] at h
      exact absurd h (by simp [exceptStripEq])
  | ok fs =>
    cases h2 : unTarLoop env now' entries [] with
    | error e' =>
      rw [h1, h2] at h
      exact absurd h (by simp [exceptStripEq])
    | ok fs' =>
      rw [h1, h2] at h
      simp only [exceptStripEq] at h
      exact congrArg Except.ok (chtimesAll_congr fs fs' h)

theorem repackExtract_time_indep (env : ProcEnv) (now now' : Nat) (src : SrcArchive)
    (uuid ref : String) :
    repackExtract env now src uuid ref = repackExtract env now' src uuid ref := by
  cases src with
  | malformed => rfl
  | good entries =>
    simp only [repackExtract]
    rw [unTar_time_indep env now now' entries]

theorem getLastD_append_single (xs : List String) (c d : String) :
    (xs ++ [c]).getLastD d = c := by
  induction xs generalizing d with
  | nil => rfl
  | cons x t ih =>
    simp only [List.cons_append, List.getLastD_cons]
    exact ih x

theorem npmRepack_indep (env : ProcEnv) (u1 u2 : String) (now1 now2 : Nat)
    (src : SrcArchive) (uuid ref : String) :
    npmRepack env u1 now1 src uuid ref = npmRepack env u2 now2 src uuid ref := by
  simp only [npmRepack]
  rw [repackExtract_time_indep env now1 now2 src uuid ref]
  cases repackExtract env now2 src uuid ref with
  | error e => rfl
  | ok fs =>
    simp only [archivexAddAll, getLastD_append_single]

theorem composerRepack_indep (env : ProcEnv) (u1 u2 : String) (now1 now2 : Nat)
    (src : SrcArchive) (uuid ref : String) :
    composerRepack env u1 now1 src uuid ref = composerRepack env u2 now2 src uuid ref := by
  simp only [composerRepack]
  rw [repackExtract_time_indep env now1 now2 src uuid ref]
  cases repackExtract env now2 src uuid ref with
  | error e => rfl
  | ok fs =>
    simp only [archivexAddAll, getLastD_append_single]

theorem hcGet_hcAdd_self (hc : HCache) (k : String × String) (v : HVal) :
    hcGet (hcAdd hc k v) k = some v := by
  simp [hcAdd, hcGet]

/-- C1: repack determinism.  For every upstream input and every
`(uuid, ref)`, the rebuild pipeline is a function of the input and
`(uuid, ref)` alone — independent of the random scratch name and of the
wall clock — so two parallel replicas starting from the same cache state
return identical bytes (and digests), and running the repack twice in a
row (the second run seeing the first's cache) returns identical results,
for both the JS-form (`PutNpmArchiveToCache`) and the PHP-form
(`GetComposerArchive`). -/
theorem repackDeterminism (env : ProcEnv) (sha1hex : OutArchive → String)
    (u1 u2 : String) (now1 now2 : Nat) (src : SrcArchive) (uuid ref : String)
    (hc : HCache) :
    (npmRepack env u1 now1 src uuid ref = npmRepack env u2 now2 src uuid ref
      ∧ composerRepack env u1 now1 src uuid ref = composerRepack env u2 now2 src uuid ref)
    ∧ ((putNpmArchiveToCache env sha1hex u1 now1 src uuid ref hc).1
        = (putNpmArchiveToCache env sha1hex u2 now2 src uuid ref hc).1
      ∧ (getComposerArchive env u1 now1 src uuid ref hc).1
        = (getComposerArchive env u2 now2 src uuid ref hc).1)
    ∧ (isOkE ((putNpmArchiveToCache env sha1hex u1 now1 src uuid ref hc).1) = true →
        (putNpmArchiveToCache env sha1hex u2 now2 src uuid ref
          ((putNpmArchiveToCache env sha1hex u1 now1 src uuid ref hc).2)).1
        = (putNpmArchiveToCache env sha1hex u1 now1 src uuid ref hc).1)
    ∧ (isOkE ((getComposerArchive env u1 now1 src uuid ref hc).1) = true →
        (getComposerArchive env u2 now2 src uuid ref
          ((getComposerArchive env u1 now1 src uuid ref hc).2)).1
        = (getComposerArchive env u1 now1 src uuid ref hc).1) := by
  have hnpm := npmRepack_indep env u1 u2 now1 now2 src uuid ref
  have hcomp := composerRepack_indep env u1 u2 now1 now2 src uuid ref
  refine ⟨⟨hnpm, hcomp⟩, ⟨?_, ?_⟩, ?_, ?_⟩
  · simp only [putNpmArchiveToCache, getNpmArchiveFromCache]
    cases hg : hcGet hc (uuid, ref) with
    | none => rw [hnpm]
    | some v =>
      cases v with
      | hbytes a => simp
      | hcorrupt => rw [hnpm]
  · by_cases hm : ref = "master"
    · subst hm
      simp only [getComposerArchive]
      rw [hcomp]
    · simp only [getComposerArchive]
      cases hg : hcGet hc (uuid, ref) with
      | none =>
        simp only [hm, ne_eq, not_false_iff, if_true, hg]
        rw [hcomp]
      | some v =>
        cases v with
        | hbytes a => simp [hm, hg]
        | hcorrupt => simp [hm, hg]
  · intro hok
    by_cases hm : ref = "master"
    · subst hm
      simp only [putNpmArchiveToCache, getNpmArchiveFromCache] at hok ⊢
      cases hg : hcGet hc (uuid, "master") with
      | some v =>
        cases v with
        | hbytes a => simp [hg]
        | hcorrupt =>
          rw [hg] at hok
          cases hrep : npmRepack env u1 now1 src uuid "master" with
          | error e =>
            rw [hrep] at hok
            simp [isOkE] at hok
          | ok a => simp [hg, hrep, hcGet_hcRemove_self, ← hnpm]
      | none =>
        rw [hg] at hok
        cases hrep : npmRepack env u1 now1 src uuid "master" with
        | error e =>
          rw [hrep] at hok
          simp [isOkE] at hok
        | ok a => simp [hg, hrep, ← hnpm]
    · simp only [putNpmArchiveToCache, getNpmArchiveFromCache] at hok ⊢
      cases hg : hcGet hc (uuid, ref) with
      | some v =>
        cases v with
        | hbytes a => simp [hg]
        | hcorrupt =>
          rw [hg] at hok
          cases hrep : npmRepack env u1 now1 src uuid ref with
          | error e =>
            rw [hrep] at hok
            simp [isOkE] at hok
          | ok a => simp [hg, hrep, hm, hcGet_hcAdd_self]
      | none =>
        rw [hg] at hok
        cases hrep : npmRepack env u1 now1 src uuid ref with
        | error e =>
          rw [hrep] at hok
          simp [isOkE] at hok
        | ok a => simp [hg, hrep, hm, hcGet_hcAdd_self]
  · intro hok
    by_cases hm : ref = "master"
    · subst hm
      simp only [getComposerArchive] at hok ⊢
      cases hrep : composerRepack env u1 now1 src uuid "master" with
      | error e => simp [hrep, isOkE] at hok
      | ok a => simp [hrep, ← hcomp]
    · simp only [getComposerArchive] at hok ⊢
      cases hg : hcGet hc (uuid, ref) with
      | some v =>
        cases v with
        | hbytes a => simp [hg, hm]
        | hcorrupt => simp [hg, hm, isOkE] at hok
      | none =>
        cases hrep : composerRepack env u1 now1 src uuid ref with
        | error e => simp [hg, hm, hrep, isOkE] at hok
        | ok a => simp [hg, hm, hrep, hcGet_hcAdd_self]

/-- C1 witness: a concrete archive repacked from the empty cache with two
different scratch names and clocks: the sequential re-run returns exactly
the first run's bytes and digest. -/
theorem repackDeterminism_witness :
    (putNpmArchiveToCache envDefault (fun _ => "d1") "tempB" 99 srcSmall "u0" "r0"
      ((putNpmArchiveToCache envDefault (fun _ => "d1") "tempA" 7 srcSmall "u0" "r0" []).2)).1
    = (putNpmArchiveToCache envDefault (fun _ => "d1") "tempA" 7 srcSmall "u0" "r0" []).1 :=
  (repackDeterminism envDefault (fun _ => "d1") "tempA" "tempB" 7 99 srcSmall
    "u0" "r0" []).2.2.1 rfl

/-- C10: digest–bytes consistency.  Whenever `PutNpmArchiveToCache` returns
successfully — on the cache-hit path as well as on the rebuild path — the
returned digest is the digest function applied to exactly the returned
bytes (for the real code, the lowercase-hex SHA-1 of the returned
archive). -/
theorem putNpm_digest_matches_bytes (env : ProcEnv) (sha1hex : OutArchive → String)
    (u : String) (now : Nat) (src : SrcArchive) (uuid ref : String) (hc : HCache)
    (a : OutArchive) (d : String)
    (h : (putNpmArchiveToCache env sha1hex u now src uuid ref hc).1 = .ok (a, d)) :
    d = sha1hex a := by
  simp only [putNpmArchiveToCache, getNpmArchiveFromCache] at h
  cases hg : hcGet hc (uuid, ref) with
  | some v =>
    cases v with
    | hbytes b =>
      rw [hg] at h
      simp only [Except.ok.injEq, Prod.mk.injEq] at h
      rw [← h.1, ← h.2]
    | hcorrupt =>
      rw [hg] at h
      cases hrep : npmRepack env u now src uuid ref with
      | error e =>
        rw [hrep] at h
        simp at h
      | ok b =>
        rw [hrep] at h
        simp only [Except.ok.injEq, Prod.mk.injEq] at h
        rw [← h.1, ← h.2]
  | none =>
    rw [hg] at h
    cases hrep : npmRepack env u now src uuid ref with
    | error e =>
      rw [hrep] at h
      simp at h
    | ok b =>
      rw [hrep] at h
      simp only [Except.ok.injEq, Prod.mk.injEq] at h
      rw [← h.1, ← h.2]

/-- C10 witness: a cache hit is served with the digest of the served
bytes. -/
theorem putNpm_digest_matches_bytes_witness :
    "members:0" = (fun a : OutArchive => "members:" ++ toString a.members.length)
      ⟨.tgz, []⟩ :=
  putNpm_digest_matches_bytes envDefault
    (fun a => "members:" ++ toString a.members.length) "tw" 0 srcSmall "uw" "rw"
    [(("uw", "rw"), .hbytes ⟨.tgz, []⟩)] ⟨.tgz, []⟩ "members:0" rfl

end Pavlik
